import Mathlib

set_option autoImplicit false

/-
Verification of the dependency-injection core of the Unchained web framework.

The embedding follows the repository sources:
  * `src/unchained/signature.py` — parameter classification and the derived
    signatures (`Parameter.is_request` and friends, `Signature.*`,
    `SignatureUpdater.update_deep_dependencies`);
  * `src/unchained/meta.py` — the route-decoration pipeline
    (`UnchainedBaseMeta._create_http_method`, `_prepare_execution`);
  * `src/unchained/dependencies/header.py` — the `Header` custom-field marker;
  * `tests/functional/dependencies/nested_dependencies/test_yield_dependencies.py`
    — expected lifecycle traces for yield-based providers (the resolution
    engine itself lives in the external `fast_depends` library).

Python objects that are mutated in place (marker instances, the keyword dict
of a `functools` pre-seeded application) are modelled through an explicit
store of marker objects indexed by `Nat` identities; mutation becomes store
update, and the per-verb record list of `meta.py` is threaded explicitly.
-/

namespace Unchained

/-- Python classes relevant to parameter classification in `signature.py`.
`emptyCls` models `inspect.Parameter.empty` (which is itself a class, so
`issubclass` accepts it); `pydModel` models a concrete pydantic model class,
a strict subclass of `baseModel` (pydantic `BaseModel`). -/
inductive PyCls where
  | httpRequest
  | unchainedSettings
  | baseUnchained
  | baseState
  | strCls
  | intCls
  | dictCls
  | emptyCls
  | baseModel
  | pydModel
  deriving DecidableEq, Repr

/-- `issubclass` between the modelled classes: reflexive, plus
`pydModel <: baseModel`. -/
def issubclassB (a b : PyCls) : Bool :=
  a == b || (a == .pydModel && b == .baseModel)

/-- A Python annotation as it appears on a formal parameter.
`annotated ty m` is `Annotated[ty, marker]`; `m` is the store identity of the
marker object when the marker is a `model.Depends` instance (custom field
markers included, since `BaseCustom` subclasses `model.Depends`), and `none`
when the second argument of `Annotated` is not a `Depends` instance.
`generic o` is a parameterized generic such as `list[int]` (it has an
`__origin__` but is not a class); `union` is a PEP 604 union such as
`str | None`; `strAnn s` is a string literal annotation. -/
inductive Ann where
  | cls (c : PyCls)
  | generic (origin : String)
  | union
  | strAnn (s : String)
  | annotated (ty : Ann) (marker : Option Nat)
  deriving DecidableEq, Repr

/-- Exceptions the embedded code can raise. `fuelOut` is not a Python
exception: it models the unbounded recursion of the source (which has no
cycle detection) when the supplied recursion bound runs out. -/
inductive PyErr where
  | typeError
  | valueError
  | attrError
  | indexError
  | fuelOut
  deriving DecidableEq, Repr

/-- One formal parameter: `inspect.Parameter` restricted to the attributes
the classification code reads (name and declared type). -/
structure Param where
  name : String
  ann : Ann
  deriving DecidableEq, Repr

/-- `Parameter.is_annotated`: the annotation has an `__origin__` and
`get_origin` yields `Annotated`. -/
def Ann.is_annotated : Ann → Bool
  | .annotated _ _ => true
  | _ => false

/-- `issubclass(ann, c)`: Python raises `TypeError` when the first argument
is not a class — which is the case for parameterized generics, unions,
string annotations and `Annotated[...]` aliases. -/
def Ann.subclassOf : Ann → PyCls → Except PyErr Bool
  | .cls a, c => .ok (issubclassB a c)
  | _, _ => .error .typeError

/-- `Parameter.is_request`: `issubclass(self.annotation, HttpRequest)`. -/
def Param.is_request (p : Param) : Except PyErr Bool :=
  p.ann.subclassOf .httpRequest

/-- `Parameter.is_settings`: subtype check against `UnchainedSettings`. -/
def Param.is_settings (p : Param) : Except PyErr Bool :=
  p.ann.subclassOf .unchainedSettings

/-- `Parameter.is_app`: subtype check against `BaseUnchained`. -/
def Param.is_app (p : Param) : Except PyErr Bool :=
  p.ann.subclassOf .baseUnchained

/-- `Parameter.is_state`: subtype check against `BaseState`. -/
def Param.is_state (p : Param) : Except PyErr Bool :=
  p.ann.subclassOf .baseState

/-- `Parameter.is_auto_depends`: `is_request or is_settings or is_app or
is_state`, with Python's left-to-right short-circuit evaluation (an
exception from an earlier disjunct propagates). -/
def Param.is_auto_depends (p : Param) : Except PyErr Bool := do
  if (← p.is_request) then return true
  if (← p.is_settings) then return true
  if (← p.is_app) then return true
  p.is_state

/-- `Parameter.is_depends`: the parameter is annotated and the marker is a
`model.Depends` instance. -/
def Param.is_depends (p : Param) : Bool :=
  match p.ann with
  | .annotated _ (some _) => true
  | _ => false

/-- `Signature.has_request_object`: some non-annotated parameter is
request-typed and literally named `request`. -/
def hasRequestObject : List Param → Except PyErr Bool
  | [] => .ok false
  | p :: rest =>
    if p.ann.is_annotated then hasRequestObject rest
    else do
      if (← p.is_request) && p.name == "request" then return true
      hasRequestObject rest

/-- `Signature.has_default_dependencies`: some non-annotated parameter is
request/settings/app/state-typed or bears one of those reserved names.
The type check of each disjunct is evaluated before the name check, so a
non-class annotation raises even on a reserved-named parameter. -/
def hasDefaultDependencies : List Param → Except PyErr Bool
  | [] => .ok false
  | p :: rest =>
    if p.ann.is_annotated then hasDefaultDependencies rest
    else do
      if (← p.is_request) || p.name == "request" then return true
      if (← p.is_settings) || p.name == "settings" then return true
      if (← p.is_app) || p.name == "app" then return true
      if (← p.is_state) || p.name == "state" then return true
      hasDefaultDependencies rest

/-- The key contributed by one parameter to
`Signature.get_default_dependencies`: the source's `elif` chain requires the
matching type and the matching reserved name together. -/
def defaultDepKey (p : Param) : Except PyErr (Option String) := do
  if (← p.is_request) && p.name == "request" then return some "request"
  if (← p.is_settings) && p.name == "settings" then return some "settings"
  if (← p.is_app) && p.name == "app" then return some "app"
  if (← p.is_state) && p.name == "state" then return some "state"
  return none

/-- `Signature.get_default_dependencies`: the keys of the returned dict, in
insertion order (all values are `None`). Parameter names are unique within a
Python signature and each key equals the parameter's name, so no key is
inserted twice. -/
def getDefaultDependencies : List Param → Except PyErr (List String)
  | [] => .ok []
  | p :: rest =>
    if p.ann.is_annotated then getDefaultDependencies rest
    else do
      let k ← defaultDepKey p
      let tail ← getDefaultDependencies rest
      match k with
      | some s => return s :: tail
      | none => return tail

/-- `Signature.new_signature_without_default_dependencies`: keep annotated
parameters, drop `is_auto_depends` ones (by type only), keep the rest. -/
def newSignatureWithoutDefaultDependencies : List Param → Except PyErr (List Param)
  | [] => .ok []
  | p :: rest =>
    if p.ann.is_annotated then do
      return p :: (← newSignatureWithoutDefaultDependencies rest)
    else do
      if (← p.is_auto_depends) then newSignatureWithoutDefaultDependencies rest
      else return p :: (← newSignatureWithoutDefaultDependencies rest)

/-- `Signature.new_signature_without_annotated`: the source builds a fresh
parameter list, appending every non-annotated parameter in order, and wraps
it in a new `Signature`; the receiver is only read. -/
def newSignatureWithoutAnnotated (sig : List Param) : List Param :=
  sig.foldl (fun acc p => if p.ann.is_annotated then acc else acc ++ [p]) []

/-- Runtime values threaded by the pipeline: the `None` placeholder, plain
values, the per-call request object (tagged by a call identity), and the
app-level `self.settings` / `self` / `self.state` values written in
`_prepare_execution`. `headersModel hs` is the value produced by the
`model_validate(headers)` branch of `Header.__call__`. -/
inductive PyVal where
  | noneV
  | str (s : String)
  | int (n : Int)
  | requestV (rid : Nat)
  | settingsV
  | appV
  | stateV
  | headersModel (hs : List (String × String))
  deriving DecidableEq, Repr

/-- A plain Python function: a name and the parameter list that
`Signature.from_callable` reports for it. -/
structure Func where
  fname : String
  params : List Param
  deriving DecidableEq, Repr

/-- The callable stored in a marker's `dependency` attribute. `preseeded`
models a `functools` pre-seeded application carrying a mutable keyword dict
and an overwritten `__signature__` (the source always assigns one right
after wrapping, so `Signature.from_callable` returns it). -/
inductive DepCallable where
  | func (f : Func)
  | preseeded (inner : DepCallable) (keywords : List (String × PyVal)) (sig : List Param)
  deriving DecidableEq, Repr

/-- `Signature.from_callable` on a marker's dependency: a plain function
reports its own parameters; a pre-seeded application reports the signature
assigned to its `__signature__` attribute. -/
def DepCallable.signature : DepCallable → List Param
  | .func f => f.params
  | .preseeded _ _ sig => sig

/-- The provider function underneath any number of pre-seeded wrappers. -/
def DepCallable.rootFunc : DepCallable → Func
  | .func f => f
  | .preseeded inner _ _ => inner.rootFunc

/-- The mutable state of one `model.Depends` marker instance. `isCustom`
records whether the instance is a `BaseCustom` (Header/QueryParams/JsonBody)
marker; `srcName` is its `param_name` attribute, `annType` the
`annotation_type` attribute assigned by the decoration walk. -/
structure MarkerObj where
  isCustom : Bool
  dependency : DepCallable
  srcName : Option String
  required : Bool
  annType : Option Ann
  deriving DecidableEq, Repr

/-- The heap of marker objects: identities mapped to marker state. -/
abbrev Store := List (Nat × MarkerObj)

/-- Read a marker object by identity. -/
def lookupM (s : Store) (i : Nat) : Option MarkerObj :=
  (s.find? (fun e => e.1 == i)).map (·.2)

/-- In-place mutation of the marker object with identity `i`. -/
def updateM (s : Store) (i : Nat) (m : MarkerObj) : Store :=
  s.map (fun e => if e.1 == i then (i, m) else e)

/-- The marker identities referenced by the `is_depends` parameters of a
signature, in order: the recursion targets of
`SignatureUpdater.update_deep_dependencies`'s final loop. -/
def depIds (sig : List Param) : List Nat :=
  sig.filterMap (fun p =>
    match p.ann with
    | .annotated _ (some i) => some i
    | _ => none)

/-- Sequential composition of one recursive step over a list of marker
identities: the loop of `update_deep_dependencies` over the `is_depends`
parameters of one signature, parameterized by the recursive call applied to
each child. Records are collected in call order. -/
def updateDeepGo (updRec : Nat → Store → Except PyErr (Store × List Nat)) :
    List Nat → Store → Except PyErr (Store × List Nat)
  | [], store => .ok (store, [])
  | i :: rest, store => do
    let (s1, r1) ← updRec i store
    let (s2, r2) ← updateDeepGo updRec rest s1
    return (s2, r1 ++ r2)

/-- `SignatureUpdater.update_deep_dependencies(instance)` for the marker
with identity `i`. Returns the updated store together with the marker
identities appended to `self.partialised_dependencies` by this call, in
append order (the source only ever appends to that list). If the marker's
dependency signature has default dependencies, the dependency is replaced in
place by a pre-seeded application whose keywords map each default-dependency
name to `None` and whose advertised signature drops the auto-injected
parameters; the marker is then recorded. Afterwards the walk recurses into
every `is_depends` parameter of the signature read at entry. `fuel` bounds
the nesting depth: the source has no cycle detection and would recurse
without bound on a cyclic graph. -/
def updateDeepDependencies : Nat → Nat → Store → Except PyErr (Store × List Nat)
  | 0, _, _ => .error .fuelOut
  | Nat.succ fuel', i, store => do
    match lookupM store i with
    | none => .error .attrError
    | some m => do
      let sig := m.dependency.signature
      let defaults ← getDefaultDependencies sig
      let (store1, recs1) ←
        if defaults.isEmpty then pure (store, ([] : List Nat))
        else do
          let sig' ← newSignatureWithoutDefaultDependencies sig
          let kw := defaults.map (fun k => (k, PyVal.noneV))
          pure (updateM store i { m with dependency := .preseeded m.dependency kw sig' },
            [i])
      let (store2, recs2) ← updateDeepGo (updateDeepDependencies fuel') (depIds sig) store1
      return (store2, recs1 ++ recs2)

/-- The `self.settings` / `self` / `self.state` values available on the app
instance inside `_prepare_execution`. -/
structure AppCtx where
  settingsVal : PyVal
  appVal : PyVal
  stateVal : PyVal
  deriving DecidableEq, Repr

/-- The route handler as the pipeline sees it. `wrapApp` is the
auto-dependency pre-seeded application built in `_create_http_method` when
the handler declares raw request/settings/app/state parameters, with its
keyword dict and overwritten `__signature__`. -/
inductive ApiFunc where
  | plain (f : Func)
  | wrapApp (inner : ApiFunc) (keywords : List (String × PyVal)) (sig : List Param)
  deriving DecidableEq, Repr

/-- `Signature.from_callable` on the (possibly wrapped) handler. -/
def ApiFunc.signature : ApiFunc → List Param
  | .plain f => f.params
  | .wrapApp _ _ sig => sig

/-- The decoration-time loop of `_create_http_method` over the handler's
parameters: for every annotated parameter, extract `(type, marker)`; if the
marker is a `BaseCustom` instance, assign `param_name := parameter.name` and
`annotation_type := type` unconditionally (the source `setattr` has no guard
on a pre-existing explicit name); since every marker is a `model.Depends`
instance, then run a fresh `SignatureUpdater` on it and collect its records.
Returns the updated store and all collected record identities in order. -/
def walkAnnotatedParams (fuel : Nat) : List Param → Store → Except PyErr (Store × List Nat)
  | [], store => .ok (store, [])
  | p :: rest, store =>
    match p.ann with
    | .annotated ty (some i) => do
      match lookupM store i with
      | none => .error .attrError
      | some m => do
        let store' :=
          if m.isCustom then
            updateM store i { m with srcName := some p.name, annType := some ty }
          else store
        let (s1, r1) ← updateDeepDependencies fuel i store'
        let (s2, r2) ← walkAnnotatedParams fuel rest s1
        return (s2, r1 ++ r2)
    | _ => walkAnnotatedParams fuel rest store

/-- The closure state captured by one decoration pass of
`_create_http_method`: the back-reference stored as `_original_api_func` on
the registered result, the (possibly pre-seeded) handler passed to `inject`,
the captured `api_func_signature`, and the annotation-stripped signature
made visible to the router. -/
structure Wrapper where
  backRef : ApiFunc
  apiFunc : ApiFunc
  apiSig : List Param
  publicSig : List Param
  deriving DecidableEq, Repr

/-- What the verb decorator is applied to: a fresh handler function, or the
result of a previous decoration pass (carrying `_original_api_func`). In the
re-decoration case, `Signature.from_callable` on the recovered function does
not see the signature the first pass walked: at its end the first pass
restored `api_func.__signature__` to the `copy.deepcopy` it took of the
pre-walk signature, and that deep copy copied every `Annotated` marker
object, so the restored signature references fresh, unwalked marker copies
(provider functions themselves are atomic under `deepcopy` and stay shared).
`restoredSig` is that restored signature: same parameter names and declared
types, but its `Depends`-marker identities are the copies', each mapped in
the store to the pre-walk state of the corresponding original marker. -/
inductive Decoratee where
  | fresh (f : Func)
  | wrapped (w : Wrapper) (restoredSig : List Param)
  deriving DecidableEq, Repr

/-- One decoration pass of the `wrapper` closure in `_create_http_method`:
recover `_original_api_func` if present (introspecting its restored,
deep-copied signature); if the handler signature has default dependencies,
wrap it in a pre-seeded application with those keywords set to `None` and
strip them from its signature; walk the annotated parameters (mutating
markers and collecting deferred records); extend the per-verb record list;
expose the annotation-stripped signature. -/
def decorate (fuel : Nat) (d : Decoratee) (store : Store) (verb : List Nat) :
    Except PyErr (Wrapper × Store × List Nat) := do
  let (apiFunc0, sig0) : ApiFunc × List Param :=
    match d with
    | .fresh f => (.plain f, f.params)
    | .wrapped w rsig => (w.backRef, rsig)
  let hasDef ← hasDefaultDependencies sig0
  let (apiFunc, apiSig) ←
    if hasDef then do
      let defaults ← getDefaultDependencies sig0
      let sigStripped ← newSignatureWithoutDefaultDependencies sig0
      pure (ApiFunc.wrapApp apiFunc0 (defaults.map (fun k => (k, PyVal.noneV))) sigStripped,
        sigStripped)
    else pure (apiFunc0, sig0)
  let (store', newRecs) ← walkAnnotatedParams fuel apiSig store
  return ({ backRef := apiFunc, apiFunc := apiFunc, apiSig := apiSig,
            publicSig := newSignatureWithoutAnnotated apiSig },
    store', verb ++ newRecs)

/-- The keyword overwrite `_prepare_execution` performs on every deferred
record's keyword dict: `request` receives the resolved request, `settings` /
`app` / `state` receive the app-level values; other keys are untouched. -/
def writeSpecialKw (req : PyVal) (ctx : AppCtx) (kw : List (String × PyVal)) :
    List (String × PyVal) :=
  kw.map (fun e =>
    if e.1 == "request" then (e.1, req)
    else if e.1 == "settings" then (e.1, ctx.settingsVal)
    else if e.1 == "app" then (e.1, ctx.appVal)
    else if e.1 == "state" then (e.1, ctx.stateVal)
    else e)

/-- The keyword overwrite `_prepare_execution` performs on the handler's own
pre-seeded application: only `settings` / `app` / `state` are written — the
source has no `request` branch in this second loop. -/
def writeHandlerKw (ctx : AppCtx) (kw : List (String × PyVal)) :
    List (String × PyVal) :=
  kw.map (fun e =>
    if e.1 == "settings" then (e.1, ctx.settingsVal)
    else if e.1 == "app" then (e.1, ctx.appVal)
    else if e.1 == "state" then (e.1, ctx.stateVal)
    else e)

/-- The loop `for dep in _with_request_dependency` of `_prepare_execution`:
write the special values into each listed record's keyword dict, in place.
Reading `.keywords` of a plain function raises `AttributeError`. -/
def injectRecords (req : PyVal) (ctx : AppCtx) : List Nat → Store → Except PyErr Store
  | [], store => .ok store
  | i :: rest, store =>
    match lookupM store i with
    | none => .error .attrError
    | some m =>
      match m.dependency with
      | .func _ => .error .attrError
      | .preseeded inner kw sig =>
        injectRecords req ctx rest
          (updateM store i { m with dependency := .preseeded inner (writeSpecialKw req ctx kw) sig })

/-- `_prepare_execution(func_args, func_kwargs)`, shared verbatim by the
sync and the async wrapper: take the request from `func_args[0]`; drop that
positional argument precisely when the captured `api_func_signature` (the
auto-stripped one) has no request parameter; write the special values into
every record of the per-verb list; then write only settings/app/state into
the handler's own pre-seeded keywords. All of this completes before the
injected callable is invoked. -/
def prepareExecution (w : Wrapper) (ctx : AppCtx) (store : Store) (verb : List Nat)
    (args : List PyVal) : Except PyErr (List PyVal × Store × ApiFunc) := do
  let req ← match args with
    | [] => .error .indexError
    | a :: _ => pure a
  let hasReq ← hasRequestObject w.apiSig
  let args' := if hasReq then args else args.tail
  let store' ← injectRecords req ctx verb store
  let apiFunc' :=
    match w.apiFunc with
    | .wrapApp inner kw sig => ApiFunc.wrapApp inner (writeHandlerKw ctx kw) sig
    | .plain f => ApiFunc.plain f
  return (args', store', apiFunc')

/-- Normalisation Django's `HttpHeaders` applies when a key is looked up:
matching is case-insensitive, and an underscore in the lookup key matches a
hyphen in the stored header name. -/
def normChar (c : Char) : Char :=
  if c = '_' then '-' else c.toLower

/-- Header-name normalisation: lowercase, underscores mapped to hyphens. -/
def normKey (s : String) : String :=
  String.mk (s.data.map normChar)

/-- `request.headers[k]` lookup with Django's normalisation; `none` when the
header is absent (which also decides the `in` membership test). -/
def headerFind (hs : List (String × String)) (k : String) : Option String :=
  (hs.find? (fun e => normKey e.1 == normKey k)).map (·.2)

/-- The attributes of a `Header` marker that `Header.__call__` reads:
`srcName` is `self.param_name`, `sigName` is `self._signature_param_name`
(initialised to `None` and never assigned anywhere in the source), plus the
required flag and the resolved `annotation_type`. -/
structure HeaderMarker where
  srcName : Option String
  sigName : Option String
  required : Bool
  annTy : PyCls
  deriving DecidableEq, Repr

/-- Python's `a or b` on optional strings: `a` wins unless it is falsy
(`None` or the empty string). -/
def pyOrName (a b : Option String) : Option String :=
  match a with
  | some s => if s.isEmpty then b else some s
  | none => b

/-- Python's f-string rendering of an optional string (`None` when absent),
as used in the `Missing header` message. -/
def pyShow (a : Option String) : String :=
  match a with
  | some s => s
  | none => "None"

/-- Errors `Header.__call__` can raise: `ninja.errors.ValidationError` with
its structured message, or a coercion failure from calling the annotation
type on the raw value. -/
inductive HdrErr where
  | validationErr (msg : String)
  | valueErr
  | typeErr
  deriving DecidableEq, Repr

/-- `self.annotation_type(value)` for the non-pydantic annotation types the
model covers: `str` returns the value unchanged, `int` parses it. -/
def coerceValue (c : PyCls) (v : String) : Except HdrErr PyVal :=
  match c with
  | .strCls => .ok (.str v)
  | .intCls =>
    match v.toInt? with
    | some n => .ok (.int n)
    | none => .error .valueErr
  | _ => .error .typeErr

/-- The `raise ValidationError(...)` / `return None` tail of
`Header.__call__`: note the message interpolates `self.param_name` itself,
not the resolved lookup name. -/
def headerMissing (h : HeaderMarker) : Except HdrErr (Option PyVal) :=
  if h.required then .error (.validationErr ("Missing header: " ++ pyShow h.srcName))
  else .ok none

/-- `Header.__call__(request)`: resolve the lookup name as
`self.param_name or self._signature_param_name`; when it is truthy and the
headers contain it (under Django's normalisation), coerce — via
`model_validate(headers)` when the annotation type is a pydantic model,
otherwise by calling the annotation type on the header value; otherwise fall
through to the required check. -/
def headerCall (h : HeaderMarker) (hs : List (String × String)) :
    Except HdrErr (Option PyVal) :=
  match pyOrName h.srcName h.sigName with
  | some n =>
    if n.isEmpty then headerMissing h
    else
      match headerFind hs n with
      | some v =>
        if issubclassB h.annTy .baseModel then .ok (some (.headersModel hs))
        else (coerceValue h.annTy v).map some
      | none => headerMissing h
  | none => headerMissing h

/-- A lifecycle event of a yield-based provider: the code before its
`yield`, or the code after it. -/
inductive LifeEvent where
  | setup (n : String)
  | teardown (n : String)
  deriving DecidableEq, Repr

/-- A chain of yield-based providers: `node n d` is a provider named `n`
whose signature depends (via a `Depends` annotation) on the provider chain
`d`; `leaf n` has no dependency. -/
inductive YDep where
  | leaf (n : String)
  | node (n : String) (dep : YDep)
  deriving DecidableEq, Repr

/-- Modelled from the spec: the generator-resolution engine (the external
`fast_depends` injection collaborator) is not part of this repository's
sources; what the repository fixes is the expected lifecycle trace in
tests/functional/dependencies/nested_dependencies/test_yield_dependencies.py.
To produce a provider's value, its dependency chain is resolved first (the
argument must exist before the provider's generator can run to its `yield`),
then the provider's own setup runs; pending teardowns are stacked and run in
last-in-first-out order at scope exit. Returns the entry events together
with the teardown stack (top first). -/
def resolveEvents : YDep → List LifeEvent × List LifeEvent
  | .leaf n => ([.setup n], [.teardown n])
  | .node n d =>
    let (ev, fin) := resolveEvents d
    (ev ++ [.setup n], .teardown n :: fin)

/-- The full lifecycle trace of a successful request using the chain: entry
events followed by the stacked teardowns. -/
def lifecycleTrace (d : YDep) : List LifeEvent :=
  (resolveEvents d).1 ++ (resolveEvents d).2

/-- The provider names in setup order. -/
def setupNames : YDep → List String
  | .leaf n => [n]
  | .node n d => setupNames d ++ [n]

/-- Decidable equality of embedded results, so concrete runs can be checked
by evaluation. -/
instance {e a : Type} [DecidableEq e] [DecidableEq a] : DecidableEq (Except e a) := fun x y =>
  match x, y with
  | .ok u, .ok v =>
    if h : u = v then isTrue (by rw [h])
    else isFalse (fun hh => by cases hh; exact h rfl)
  | .ok _, .error _ => isFalse (fun hh => by cases hh)
  | .error _, .ok _ => isFalse (fun hh => by cases hh)
  | .error u, .error v =>
    if h : u = v then isTrue (by rw [h])
    else isFalse (fun hh => by cases hh; exact h rfl)

/- ===================== Theorems ===================== -/

@[simp] theorem ok_bind {e a b : Type} (x : a) (f : a → Except e b) :
    (Except.ok x >>= f : Except e b) = f x := rfl

@[simp] theorem error_bind {e a b : Type} (err : e) (f : a → Except e b) :
    (Except.error err >>= f : Except e b) = .error err := rfl

@[simp] theorem pure_eq_ok {e a : Type} (x : a) : (pure x : Except e a) = .ok x := rfl

@[simp] theorem exMap_ok {e a b : Type} (f : a → b) (x : a) :
    (Except.ok x : Except e a).map f = .ok (f x) := rfl

@[simp] theorem exMap_error {e a b : Type} (f : a → b) (err : e) :
    (Except.error err : Except e a).map f = .error err := rfl

theorem hasDefaultDependencies_cons_ann (p : Param) (hp : p.ann.is_annotated = true)
    (rest : List Param) :
    hasDefaultDependencies (p :: rest) = hasDefaultDependencies rest := by
  simp [hasDefaultDependencies, hp]

theorem hasDefaultDependencies_cons_cls (nm : String) (c : PyCls) (rest : List Param) :
    hasDefaultDependencies (⟨nm, .cls c⟩ :: rest) =
      if issubclassB c .httpRequest || nm == "request" then .ok true
      else if issubclassB c .unchainedSettings || nm == "settings" then .ok true
      else if issubclassB c .baseUnchained || nm == "app" then .ok true
      else if issubclassB c .baseState || nm == "state" then .ok true
      else hasDefaultDependencies rest := by
  simp only [hasDefaultDependencies, Ann.is_annotated, Param.is_request, Param.is_settings,
    Param.is_app, Param.is_state, Ann.subclassOf, ok_bind, pure_eq_ok, Bool.false_eq_true,
    if_false]

theorem hasRequestObject_cons_ann (p : Param) (hp : p.ann.is_annotated = true)
    (rest : List Param) :
    hasRequestObject (p :: rest) = hasRequestObject rest := by
  simp [hasRequestObject, hp]

theorem hasRequestObject_cons_cls (nm : String) (c : PyCls) (rest : List Param) :
    hasRequestObject (⟨nm, .cls c⟩ :: rest) =
      if issubclassB c .httpRequest && nm == "request" then .ok true
      else hasRequestObject rest := by
  simp only [hasRequestObject, Ann.is_annotated, Param.is_request, Ann.subclassOf,
    ok_bind, pure_eq_ok, Bool.false_eq_true, if_false]

theorem defaultDepKey_cls (nm : String) (c : PyCls) :
    defaultDepKey ⟨nm, .cls c⟩ =
      if issubclassB c .httpRequest && nm == "request" then .ok (some "request")
      else if issubclassB c .unchainedSettings && nm == "settings" then .ok (some "settings")
      else if issubclassB c .baseUnchained && nm == "app" then .ok (some "app")
      else if issubclassB c .baseState && nm == "state" then .ok (some "state")
      else .ok none := by
  simp only [defaultDepKey, Param.is_request, Param.is_settings, Param.is_app,
    Param.is_state, Ann.subclassOf, ok_bind, pure_eq_ok]

theorem getDefaultDependencies_cons_ann (p : Param) (hp : p.ann.is_annotated = true)
    (rest : List Param) :
    getDefaultDependencies (p :: rest) = getDefaultDependencies rest := by
  simp [getDefaultDependencies, hp]

theorem getDefaultDependencies_cons_key (p : Param) (hp : p.ann.is_annotated = false)
    (k : Option String) (hk : defaultDepKey p = .ok k) (rest : List Param) :
    getDefaultDependencies (p :: rest) =
      (getDefaultDependencies rest).map (fun tail =>
        match k with
        | some s => s :: tail
        | none => tail) := by
  simp only [getDefaultDependencies, hp, Bool.false_eq_true, if_false, hk, ok_bind]
  cases h : getDefaultDependencies rest with
  | ok l => cases k <;> simp
  | error err => cases k <;> simp

theorem is_auto_depends_cls (nm : String) (c : PyCls) :
    Param.is_auto_depends ⟨nm, .cls c⟩ =
      .ok (issubclassB c .httpRequest || issubclassB c .unchainedSettings ||
        issubclassB c .baseUnchained || issubclassB c .baseState) := by
  simp only [Param.is_auto_depends, Param.is_request, Param.is_settings, Param.is_app,
    Param.is_state, Ann.subclassOf, ok_bind, pure_eq_ok]
  cases h1 : issubclassB c .httpRequest <;>
    cases h2 : issubclassB c .unchainedSettings <;>
    cases h3 : issubclassB c .baseUnchained <;>
    cases h4 : issubclassB c .baseState <;> simp

theorem newSigWithoutDefaults_cons_ann (p : Param) (hp : p.ann.is_annotated = true)
    (rest : List Param) :
    newSignatureWithoutDefaultDependencies (p :: rest) =
      (newSignatureWithoutDefaultDependencies rest).map (fun t => p :: t) := by
  simp only [newSignatureWithoutDefaultDependencies, hp, if_true]
  cases h : newSignatureWithoutDefaultDependencies rest <;> simp

theorem newSigWithoutDefaults_cons_cls (nm : String) (c : PyCls) (rest : List Param) :
    newSignatureWithoutDefaultDependencies (⟨nm, .cls c⟩ :: rest) =
      if issubclassB c .httpRequest || issubclassB c .unchainedSettings ||
          issubclassB c .baseUnchained || issubclassB c .baseState then
        newSignatureWithoutDefaultDependencies rest
      else
        (newSignatureWithoutDefaultDependencies rest).map (fun t => (⟨nm, .cls c⟩ : Param) :: t) := by
  simp only [newSignatureWithoutDefaultDependencies, Ann.is_annotated, Bool.false_eq_true,
    if_false, is_auto_depends_cls, ok_bind]
  split
  · rfl
  · cases h : newSignatureWithoutDefaultDependencies rest <;> simp

/-- The pieces of a parameter that `is_auto_depends` accepts as plain: its
annotation is a class and none of the four subtype checks hold. -/
theorem auto_false_parts (p : Param) (h : p.is_auto_depends = .ok false) :
    ∃ c, p.ann = .cls c ∧ issubclassB c .httpRequest = false ∧
      issubclassB c .unchainedSettings = false ∧
      issubclassB c .baseUnchained = false ∧ issubclassB c .baseState = false := by
  obtain ⟨nm, a⟩ := p
  cases a with
  | cls c =>
    rw [is_auto_depends_cls] at h
    refine ⟨c, rfl, ?_⟩
    cases h1 : issubclassB c .httpRequest <;>
      cases h2 : issubclassB c .unchainedSettings <;>
      cases h3 : issubclassB c .baseUnchained <;>
      cases h4 : issubclassB c .baseState <;> simp_all
  | generic o =>
    simp [Param.is_auto_depends, Param.is_request, Ann.subclassOf] at h
  | union =>
    simp [Param.is_auto_depends, Param.is_request, Ann.subclassOf] at h
  | strAnn s =>
    simp [Param.is_auto_depends, Param.is_request, Ann.subclassOf] at h
  | annotated ty m =>
    simp [Param.is_auto_depends, Param.is_request, Ann.subclassOf] at h

theorem defaultDepKey_of_auto_false (p : Param) (h : p.is_auto_depends = .ok false) :
    defaultDepKey p = .ok none := by
  obtain ⟨c, hc, h1, h2, h3, h4⟩ := auto_false_parts p h
  obtain ⟨nm, a⟩ := p
  simp only at hc
  cases hc
  rw [defaultDepKey_cls]
  simp [h1, h2, h3, h4]

theorem foldl_keep_eq_filter (sig : List Param) :
    ∀ acc : List Param,
      sig.foldl (fun acc p => if p.ann.is_annotated then acc else acc ++ [p]) acc =
        acc ++ sig.filter (fun p => !p.ann.is_annotated) := by
  induction sig with
  | nil => intro acc; simp
  | cons p rest ih =>
    intro acc
    by_cases hp : p.ann.is_annotated
    · simp [List.foldl_cons, hp, ih]
    · simp [List.foldl_cons, hp, ih]

/-- C9: `new_signature_without_annotated` returns a new signature consisting
of exactly the non-annotated parameters of the input, in their original
relative order (it is the order-preserving filter, hence a sublist), and —
being a pure function of the input in this embedding, as in the source,
which only reads the receiver while accumulating a fresh list — it leaves
the input signature unchanged. -/
theorem claim_C9 (sig : List Param) :
    newSignatureWithoutAnnotated sig = sig.filter (fun p => !p.ann.is_annotated) ∧
    (newSignatureWithoutAnnotated sig).Sublist sig ∧
    ∀ p, p ∈ newSignatureWithoutAnnotated sig ↔ p ∈ sig ∧ p.ann.is_annotated = false := by
  have hf : newSignatureWithoutAnnotated sig =
      sig.filter (fun p => !p.ann.is_annotated) := by
    simpa using foldl_keep_eq_filter sig []
  refine ⟨hf, ?_, ?_⟩
  · rw [hf]; exact List.filter_sublist sig
  · intro p
    rw [hf]
    simp [List.mem_filter]

/-- C10 (counterexample): a parameter whose annotation is a parameterized
generic such as `list[int]` is not `Annotated` and not a class, and the
classification does not fall back to "plain": `is_request` raises
`TypeError` (Python's `issubclass` rejects a non-class first argument), and
every signature operation built on the classification propagates that
exception instead of returning normally. -/
theorem claim_C10_refuted :
    Ann.is_annotated (.generic "list") = false ∧
    Param.is_request ⟨"x", .generic "list"⟩ = .error .typeError ∧
    hasDefaultDependencies [⟨"x", .generic "list"⟩] = .error .typeError ∧
    hasRequestObject [⟨"x", .generic "list"⟩] = .error .typeError ∧
    getDefaultDependencies [⟨"x", .generic "list"⟩] = .error .typeError ∧
    newSignatureWithoutDefaultDependencies [⟨"x", .generic "list"⟩] = .error .typeError ∧
    Param.is_request ⟨"q", .union⟩ = .error .typeError ∧
    Param.is_request ⟨"r", .strAnn "Foo"⟩ = .error .typeError :=
  ⟨rfl, rfl, rfl, rfl, rfl, rfl, rfl, rfl⟩

/-- C10 (amended): the classification predicates and the signature
operations built on them return normally — classifying a parameter as plain
when it matches none of the special types/names — only when every
non-`Annotated` parameter's annotation is a class; a parameter whose
annotation is neither `Annotated` nor a class makes `is_request` (and hence
the signature operations that reach it) raise `TypeError` rather than
classify it as plain. -/
theorem claim_C10 (sig : List Param)
    (h : ∀ p ∈ sig, p.ann.is_annotated = true ∨ ∃ c, p.ann = .cls c) :
    (∃ b, hasDefaultDependencies sig = .ok b) ∧
    (∃ l, getDefaultDependencies sig = .ok l) ∧
    (∃ s, newSignatureWithoutDefaultDependencies sig = .ok s) ∧
    (∃ b, hasRequestObject sig = .ok b) ∧
    (∀ q : Param, q.ann.is_annotated = false → (∀ c, q.ann ≠ .cls c) →
      q.is_request = .error .typeError) := by
  refine ⟨?_, ?_, ?_, ?_, ?_⟩
  case _ =>
    induction sig with
    | nil => exact ⟨false, rfl⟩
    | cons p rest ih =>
      obtain ⟨b, hb⟩ := ih (fun q hq => h q (List.mem_cons_of_mem _ hq))
      rcases h p (List.mem_cons_self _ _) with hp | ⟨c, hc⟩
      · exact ⟨b, by rw [hasDefaultDependencies_cons_ann p hp]; exact hb⟩
      · obtain ⟨nm, a⟩ := p
        simp only at hc
        cases hc
        rw [hasDefaultDependencies_cons_cls]
        repeat' split
        all_goals first
        | exact ⟨true, rfl⟩
        | exact ⟨b, hb⟩
  case _ =>
    induction sig with
    | nil => exact ⟨[], rfl⟩
    | cons p rest ih =>
      obtain ⟨l, hl⟩ := ih (fun q hq => h q (List.mem_cons_of_mem _ hq))
      rcases h p (List.mem_cons_self _ _) with hp | ⟨c, hc⟩
      · exact ⟨l, by rw [getDefaultDependencies_cons_ann p hp]; exact hl⟩
      · obtain ⟨nm, a⟩ := p
        simp only at hc
        cases hc
        have hkey := defaultDepKey_cls nm c
        revert hkey
        repeat' split
        all_goals intro hkey
        all_goals rw [getDefaultDependencies_cons_key ⟨nm, .cls c⟩ rfl _ hkey, hl]
        all_goals exact ⟨_, rfl⟩
  case _ =>
    induction sig with
    | nil => exact ⟨[], rfl⟩
    | cons p rest ih =>
      obtain ⟨s, hs⟩ := ih (fun q hq => h q (List.mem_cons_of_mem _ hq))
      rcases h p (List.mem_cons_self _ _) with hp | ⟨c, hc⟩
      · exact ⟨p :: s, by rw [newSigWithoutDefaults_cons_ann p hp, hs]; rfl⟩
      · obtain ⟨nm, a⟩ := p
        simp only at hc
        cases hc
        rw [newSigWithoutDefaults_cons_cls]
        split
        · exact ⟨s, hs⟩
        · rw [hs]; exact ⟨_, rfl⟩
  case _ =>
    induction sig with
    | nil => exact ⟨false, rfl⟩
    | cons p rest ih =>
      obtain ⟨b, hb⟩ := ih (fun q hq => h q (List.mem_cons_of_mem _ hq))
      rcases h p (List.mem_cons_self _ _) with hp | ⟨c, hc⟩
      · exact ⟨b, by rw [hasRequestObject_cons_ann p hp]; exact hb⟩
      · obtain ⟨nm, a⟩ := p
        simp only at hc
        cases hc
        rw [hasRequestObject_cons_cls]
        split
        · exact ⟨true, rfl⟩
        · exact ⟨b, hb⟩
  case _ =>
    intro q hq hcls
    obtain ⟨nm, a⟩ := q
    cases a with
    | cls c => exact absurd rfl (hcls c)
    | generic o => rfl
    | union => rfl
    | strAnn s => rfl
    | annotated ty m => simp [Ann.is_annotated] at hq

/-- Witness for C10 (amended) at a concrete class-annotated signature. -/
theorem claim_C10_witness :
    (∃ b, hasDefaultDependencies [⟨"a", .cls .strCls⟩, ⟨"b", .cls .intCls⟩] = .ok b) ∧
    (∃ l, getDefaultDependencies [⟨"a", .cls .strCls⟩, ⟨"b", .cls .intCls⟩] = .ok l) ∧
    (∃ s, newSignatureWithoutDefaultDependencies
        [⟨"a", .cls .strCls⟩, ⟨"b", .cls .intCls⟩] = .ok s) ∧
    (∃ b, hasRequestObject [⟨"a", .cls .strCls⟩, ⟨"b", .cls .intCls⟩] = .ok b) ∧
    (∀ q : Param, q.ann.is_annotated = false → (∀ c, q.ann ≠ .cls c) →
      q.is_request = .error .typeError) :=
  claim_C10 [⟨"a", .cls .strCls⟩, ⟨"b", .cls .intCls⟩]
    (by intro p hp; fin_cases hp <;> exact Or.inr ⟨_, rfl⟩)

theorem resolveEvents_eq (d : YDep) :
    resolveEvents d =
      ((setupNames d).map LifeEvent.setup,
        ((setupNames d).map LifeEvent.teardown).reverse) := by
  induction d with
  | leaf n => rfl
  | node n d ih => simp [resolveEvents, setupNames, ih]

/-- Anchor: the model reproduces the expected call order of the "Nested
Dependency Lifecycle" case of test_yield_dependencies.py, where
`get_dependency_b` depends on `get_dependency_a`:
`[setup_a, setup_b, teardown_b, teardown_a]`. -/
theorem lifecycleTrace_nested_testcase :
    lifecycleTrace (.node "b" (.leaf "a")) =
      [.setup "a", .setup "b", .teardown "b", .teardown "a"] := rfl

/-- Anchor: the model reproduces the expected call order of the "Deep nested
dependencies" case of test_yield_dependencies.py (`deep_a → deep_b → dep_c`):
`[setup_c, setup_b, setup_a, teardown_a, teardown_b, teardown_c]`. -/
theorem lifecycleTrace_deep_testcase :
    lifecycleTrace (.node "a" (.node "b" (.leaf "c"))) =
      [.setup "c", .setup "b", .setup "a",
        .teardown "a", .teardown "b", .teardown "c"] := rfl

/-- C6 (counterexample): for a yield-based provider `outerA` that directly
depends on a yield-based provider `innerB`, the actual lifecycle trace is
setup of the dependency `innerB` first and teardown of `innerB` last — not
the claimed "setup of A first, setup of B last, teardown of B first,
teardown of A last". -/
theorem claim_C6_refuted :
    lifecycleTrace (.node "outerA" (.leaf "innerB")) =
      [.setup "innerB", .setup "outerA", .teardown "outerA", .teardown "innerB"] ∧
    lifecycleTrace (.node "outerA" (.leaf "innerB")) ≠
      [.setup "outerA", .setup "innerB", .teardown "innerB", .teardown "outerA"] := by
  exact ⟨rfl, by decide⟩

/-- C6 (amended): for a provider `A` that directly depends on a provider
`B`, setup of `B` comes first and setup of `A` last among setups, then
teardown of `A` first and teardown of `B` last (innermost setup first,
outermost setup last, outermost teardown first, innermost teardown last);
and for every chain the teardown order is strictly the reverse of the setup
order. -/
theorem claim_C6 (nA nB : String) (d : YDep) :
    lifecycleTrace (.node nA (.leaf nB)) =
      [.setup nB, .setup nA, .teardown nA, .teardown nB] ∧
    lifecycleTrace d =
      (setupNames d).map LifeEvent.setup ++
        ((setupNames d).map LifeEvent.teardown).reverse := by
  constructor
  · rfl
  · simp [lifecycleTrace, resolveEvents_eq]

/-- C7: for a `Header` marker whose `param_name` resolved to `n` (non-empty,
as every real header name is): with `required=True` and a request whose
headers lack `n`, `__call__` raises a `ValidationError` whose structured
message contains the missing header name `n` exactly; with the header
supplied under any case/underscore variation `k` of `n` and a `str`
annotation type, it returns exactly the provided value coerced to `str`;
with `required=False` and the header absent, it returns `None` without
raising. -/
theorem claim_C7 (n k v : String) (tail hs : List (String × String)) (sn : Option String)
    (req : Bool) (hn : n.isEmpty = false) (hk : normKey k = normKey n)
    (habsent : headerFind hs n = none) :
    (headerCall ⟨some n, sn, true, .strCls⟩ hs =
        .error (.validationErr ("Missing header: " ++ n)) ∧
      ∃ pre post, ("Missing header: " ++ n) = pre ++ n ++ post) ∧
    (headerCall ⟨some n, sn, false, .strCls⟩ hs = .ok none) ∧
    headerCall ⟨some n, sn, req, .strCls⟩ ((k, v) :: tail) = .ok (some (.str v)) := by
  have hfind : headerFind ((k, v) :: tail) n = some v := by
    simp [headerFind, List.find?, hk]
  refine ⟨⟨?_, "Missing header: ", "", by simp⟩, ?_, ?_⟩
  · simp [headerCall, pyOrName, hn, habsent, headerMissing, pyShow]
  · simp [headerCall, pyOrName, hn, habsent, headerMissing]
  · simp [headerCall, pyOrName, hn, hfind, coerceValue, issubclassB]

/-- Witness for C7 at the concrete header name `x-api-key`, supplied under
the case variation `X-Api-Key`. -/
theorem claim_C7_witness :
    (headerCall ⟨some "x-api-key", none, true, .strCls⟩ [] =
        .error (.validationErr ("Missing header: " ++ "x-api-key")) ∧
      ∃ pre post, ("Missing header: " ++ "x-api-key") = pre ++ "x-api-key" ++ post) ∧
    (headerCall ⟨some "x-api-key", none, false, .strCls⟩ [] = .ok none) ∧
    headerCall ⟨some "x-api-key", none, true, .strCls⟩ [("X-Api-Key", "tok")] =
      .ok (some (.str "tok")) :=
  claim_C7 "x-api-key" "X-Api-Key" "tok" [] [] none true rfl rfl rfl

/-- C2 (counterexample): two distinct `Depends` marker instances (store
identities 1 and 2, as produced by two separate `Depends(c)` decoration-site
calls) reference the same provider `c`, whose signature needs the request.
One decoration pass over a handler with both annotated parameters registers
two deferred binding records — one per reference — both for provider `c`,
exactly the behaviour the source's own TODO comment in
`_create_http_method` acknowledges. So the walk does not guarantee at most
one record per provider callable. -/
theorem claim_C2_refuted :
    walkAnnotatedParams 2
        [⟨"x", .annotated (.cls .strCls) (some 1)⟩,
          ⟨"y", .annotated (.cls .strCls) (some 2)⟩]
        [(1, ⟨false, .func ⟨"c", [⟨"request", .cls .httpRequest⟩]⟩, none, true, none⟩),
          (2, ⟨false, .func ⟨"c", [⟨"request", .cls .httpRequest⟩]⟩, none, true, none⟩)] =
      .ok ([(1, ⟨false,
              .preseeded (.func ⟨"c", [⟨"request", .cls .httpRequest⟩]⟩)
                [("request", .noneV)] [], none, true, none⟩),
            (2, ⟨false,
              .preseeded (.func ⟨"c", [⟨"request", .cls .httpRequest⟩]⟩)
                [("request", .noneV)] [], none, true, none⟩)],
        [1, 2]) ∧
    (1 : Nat) ≠ 2 ∧
    DepCallable.rootFunc
        (.preseeded (.func ⟨"c", [⟨"request", .cls .httpRequest⟩]⟩) [("request", .noneV)] []) =
      ⟨"c", [⟨"request", .cls .httpRequest⟩]⟩ :=
  ⟨rfl, by decide, rfl⟩

/-- C3 (counterexample): `_with_request_dependency` is created once per HTTP
verb in `_create_http_method`, not per route. Decorating route `r1` (whose
dependency is marker 1) and then route `r2` (marker 2) with the same verb
yields the shared record list `[1, 2]`; invoking `r1`'s wrapper with request
`requestV 7` then writes that request into the binding partial of marker 2 —
a record belonging to `r2`'s dependency tree. -/
theorem claim_C3_refuted :
    (do
      let (w1, s1, v1) ← decorate 2
        (.fresh ⟨"r1", [⟨"x", .annotated (.cls .strCls) (some 1)⟩]⟩)
        [(1, ⟨false, .func ⟨"d1", [⟨"request", .cls .httpRequest⟩]⟩, none, true, none⟩),
          (2, ⟨false, .func ⟨"d2", [⟨"request", .cls .httpRequest⟩]⟩, none, true, none⟩)] []
      let (_w2, s2, v2) ← decorate 2
        (.fresh ⟨"r2", [⟨"y", .annotated (.cls .strCls) (some 2)⟩]⟩) s1 v1
      let (_args, s3, _f) ← prepareExecution w1 ⟨.settingsV, .appV, .stateV⟩ s2 v2
        [.requestV 7]
      pure (v2, (lookupM s3 2).map (fun (m : MarkerObj) => m.dependency)) :
        Except PyErr (List Nat × Option DepCallable)) =
    .ok ([1, 2],
      some (.preseeded (.func ⟨"d2", [⟨"request", .cls .httpRequest⟩]⟩)
        [("request", PyVal.requestV 7)] [])) := rfl

/-- C4 (code bug, at the failing input of
tests/functional/dependencies/request/test_request_object.py): a handler
declaring a raw `request: HttpRequest` parameter. Decoration pre-seeds the
handler with `request=None` and strips `request` from the captured
signature, so at call time the wrapper (1) drops `args[0]` even though the
handler's own signature does declare `request` (the drop test runs against
the stripped signature), and (2) leaves the pre-seeded `request` keyword at
`None` — `_prepare_execution`'s handler-partial loop writes only
settings/app/state, never the request. The handler therefore never receives
the resolved request, while the claim (and the repository's request tests)
require it to. -/
theorem claim_C4_bug :
    hasRequestObject [⟨"request", .cls .httpRequest⟩] = .ok true ∧
    decorate 1 (.fresh ⟨"h", [⟨"request", .cls .httpRequest⟩]⟩) [] [] =
      .ok ({ backRef := .wrapApp (.plain ⟨"h", [⟨"request", .cls .httpRequest⟩]⟩)
              [("request", .noneV)] [],
             apiFunc := .wrapApp (.plain ⟨"h", [⟨"request", .cls .httpRequest⟩]⟩)
              [("request", .noneV)] [],
             apiSig := [], publicSig := [] }, [], []) ∧
    prepareExecution
        { backRef := .wrapApp (.plain ⟨"h", [⟨"request", .cls .httpRequest⟩]⟩)
            [("request", .noneV)] [],
          apiFunc := .wrapApp (.plain ⟨"h", [⟨"request", .cls .httpRequest⟩]⟩)
            [("request", .noneV)] [],
          apiSig := [], publicSig := [] }
        ⟨.settingsV, .appV, .stateV⟩ [] [] [.requestV 9] =
      .ok ([], [],
        .wrapApp (.plain ⟨"h", [⟨"request", .cls .httpRequest⟩]⟩) [("request", .noneV)] []) ∧
    PyVal.noneV ≠ PyVal.requestV 9 :=
  ⟨rfl, rfl, rfl, by decide⟩

/-- C5 (code bug, at the failing input of
tests/functional/dependencies/header/test_converted_name_header.py): a
`Header("x_custom_header")` marker constructed with an explicit source name,
attached to a parameter named `value`. The decoration loop of
`_create_http_method` runs `setattr(instance, "param_name", param.name)`
unconditionally, overwriting the explicit name with `value`; a subsequent
request supplying `x-custom-header` then fails the lookup and raises
`Missing header: value`, while the claim (with the spec and the header
tests) requires the explicit source name to survive the walk. The
`annotation_type` half of the claim does hold (it is set to the declared
type `str`). -/
theorem claim_C5_bug :
    walkAnnotatedParams 2 [⟨"value", .annotated (.cls .strCls) (some 1)⟩]
        [(1, ⟨true, .func ⟨"Header.call", [⟨"request", .cls .httpRequest⟩]⟩,
          some "x_custom_header", true, none⟩)] =
      .ok ([(1, ⟨true,
            .preseeded (.func ⟨"Header.call", [⟨"request", .cls .httpRequest⟩]⟩)
              [("request", .noneV)] [],
            some "value", true, some (.cls .strCls)⟩)], [1]) ∧
    (some "value" : Option String) ≠ some "x_custom_header" ∧
    headerCall ⟨some "value", none, true, .strCls⟩ [("x-custom-header", "VAL")] =
      .error (.validationErr "Missing header: value") :=
  ⟨rfl, by decide, rfl⟩

/-- C8 (counterexample): for a handler declaring a raw auto-injected
parameter (`request: HttpRequest`), the back-reference stored as
`_original_api_func` is the pre-seeded application built by the
auto-dependency stripping step, not the original undecorated function — so
a second decoration pass recovers the pre-seeded application instead of the
original. -/
theorem claim_C8_refuted :
    (decorate 1 (.fresh ⟨"h", [⟨"request", .cls .httpRequest⟩]⟩) [] []).map
        (fun r => r.1.backRef) =
      .ok (.wrapApp (.plain ⟨"h", [⟨"request", .cls .httpRequest⟩]⟩)
        [("request", PyVal.noneV)] []) ∧
    ApiFunc.wrapApp (.plain ⟨"h", [⟨"request", .cls .httpRequest⟩]⟩)
        [("request", PyVal.noneV)] [] ≠
      .plain ⟨"h", [⟨"request", .cls .httpRequest⟩]⟩ :=
  ⟨rfl, by decide⟩

theorem getDefault_cons_plain (p : Param) (hp : p.is_auto_depends = .ok false)
    (rest : List Param) :
    getDefaultDependencies (p :: rest) = getDefaultDependencies rest := by
  obtain ⟨c, hc, -⟩ := auto_false_parts p hp
  have hann : p.ann.is_annotated = false := by rw [hc]; rfl
  rw [getDefaultDependencies_cons_key p hann none (defaultDepKey_of_auto_false p hp)]
  cases h : getDefaultDependencies rest <;> simp

theorem getDefault_append_plain (pre : List Param)
    (hpre : ∀ p ∈ pre, p.is_auto_depends = .ok false) (l : List Param) :
    getDefaultDependencies (pre ++ l) = getDefaultDependencies l := by
  induction pre with
  | nil => rfl
  | cons p rest ih =>
    rw [List.cons_append, getDefault_cons_plain p (hpre p (List.mem_cons_self _ _))]
    exact ih (fun q hq => hpre q (List.mem_cons_of_mem _ hq))

theorem getDefault_plain_nil (l : List Param)
    (hl : ∀ p ∈ l, p.is_auto_depends = .ok false) :
    getDefaultDependencies l = .ok [] := by
  simpa using getDefault_append_plain l hl []

theorem newSigWithoutDefaults_cons_plain (p : Param) (hp : p.is_auto_depends = .ok false)
    (rest : List Param) :
    newSignatureWithoutDefaultDependencies (p :: rest) =
      (newSignatureWithoutDefaultDependencies rest).map (fun t => p :: t) := by
  obtain ⟨c, hc, -⟩ := auto_false_parts p hp
  have hann : p.ann.is_annotated = false := by rw [hc]; rfl
  simp only [newSignatureWithoutDefaultDependencies, hann, Bool.false_eq_true, if_false,
    hp, ok_bind]
  cases h : newSignatureWithoutDefaultDependencies rest <;> simp

theorem newSigWithoutDefaults_cons_auto (p : Param) (hp : p.is_auto_depends = .ok true)
    (rest : List Param) :
    newSignatureWithoutDefaultDependencies (p :: rest) =
      newSignatureWithoutDefaultDependencies rest := by
  have hann : p.ann.is_annotated = false := by
    obtain ⟨nm, a⟩ := p
    cases a <;> first
    | rfl
    | simp [Param.is_auto_depends, Param.is_request, Ann.subclassOf] at hp
  simp [newSignatureWithoutDefaultDependencies, hann, hp]

theorem newSigWithoutDefaults_plain_id (l : List Param)
    (hl : ∀ p ∈ l, p.is_auto_depends = .ok false) :
    newSignatureWithoutDefaultDependencies l = .ok l := by
  induction l with
  | nil => rfl
  | cons p rest ih =>
    rw [newSigWithoutDefaults_cons_plain p (hl p (List.mem_cons_self _ _)),
      ih (fun q hq => hl q (List.mem_cons_of_mem _ hq))]
    rfl

theorem newSigWithoutDefaults_append_plain (pre : List Param)
    (hpre : ∀ p ∈ pre, p.is_auto_depends = .ok false) (l res : List Param)
    (hres : newSignatureWithoutDefaultDependencies l = .ok res) :
    newSignatureWithoutDefaultDependencies (pre ++ l) = .ok (pre ++ res) := by
  induction pre with
  | nil => simpa using hres
  | cons p rest ih =>
    rw [List.cons_append, newSigWithoutDefaults_cons_plain p (hpre p (List.mem_cons_self _ _)),
      ih (fun q hq => hpre q (List.mem_cons_of_mem _ hq))]
    rfl

theorem depIds_plain (l : List Param) (hl : ∀ p ∈ l, p.is_auto_depends = .ok false) :
    depIds l = [] := by
  induction l with
  | nil => rfl
  | cons p rest ih =>
    obtain ⟨c, hc, -⟩ := auto_false_parts p (hl p (List.mem_cons_self _ _))
    obtain ⟨nm, a⟩ := p
    simp only at hc
    cases hc
    simpa [depIds] using ih (fun q hq => hl q (List.mem_cons_of_mem _ hq))

theorem updateDeepGo_nil (f : Nat → Store → Except PyErr (Store × List Nat)) (store : Store) :
    updateDeepGo f [] store = .ok (store, []) := rfl

theorem updateDeepGo_single (f : Nat → Store → Except PyErr (Store × List Nat)) (i : Nat)
    (store : Store) : updateDeepGo f [i] store = f i store := by
  cases h : f i store with
  | ok r => obtain ⟨s, l⟩ := r; simp [updateDeepGo, h, updateDeepGo_nil]
  | error err => simp [updateDeepGo, h]

/-- One `update_deep_dependencies` step at a marker whose dependency
signature has no default dependencies: no wrapping, no record, recursion
into the dependency parameters only. -/
theorem updateDeep_node_plain (fuel i : Nat) (store : Store) (m : MarkerObj)
    (hs : lookupM store i = some m)
    (hdef : getDefaultDependencies m.dependency.signature = .ok []) :
    updateDeepDependencies (fuel + 1) i store =
      updateDeepGo (updateDeepDependencies fuel) (depIds m.dependency.signature) store := by
  simp only [updateDeepDependencies, hs, hdef, ok_bind, List.isEmpty_nil, if_true,
    pure_eq_ok]
  cases h : updateDeepGo (updateDeepDependencies fuel) (depIds m.dependency.signature) store with
  | ok r => obtain ⟨s, l⟩ := r; simp [h]
  | error err => simp [h]

/-- One `update_deep_dependencies` step at a marker whose dependency
signature does have default dependencies: the dependency is replaced by the
pre-seeded application, the marker is recorded first, then the walk recurses
into the dependency parameters of the signature read at entry. -/
theorem updateDeep_node_defaults (fuel i : Nat) (store : Store) (m : MarkerObj)
    (ks : List String) (sig' : List Param)
    (hs : lookupM store i = some m)
    (hdef : getDefaultDependencies m.dependency.signature = .ok ks)
    (hne : ks.isEmpty = false)
    (hsig' : newSignatureWithoutDefaultDependencies m.dependency.signature = .ok sig') :
    updateDeepDependencies (fuel + 1) i store =
      (updateDeepGo (updateDeepDependencies fuel) (depIds m.dependency.signature)
          (updateM store i
            { m with dependency :=
                .preseeded m.dependency (ks.map (fun k => (k, PyVal.noneV))) sig' })).map
        (fun r => (r.1, i :: r.2)) := by
  simp only [updateDeepDependencies, hs, hdef, ok_bind, hne, Bool.false_eq_true, if_false,
    hsig', pure_eq_ok]
  cases h : updateDeepGo (updateDeepDependencies fuel) (depIds m.dependency.signature)
      (updateM store i
        { m with dependency :=
            .preseeded m.dependency (ks.map (fun k => (k, PyVal.noneV))) sig' }) with
  | ok r => obtain ⟨s, l⟩ := r; simp [h]
  | error err => simp [h]

theorem lookupM_cons (a : Nat) (b : MarkerObj) (t : Store) (j : Nat) :
    lookupM ((a, b) :: t) j = if a == j then some b else lookupM t j := by
  simp only [lookupM, List.find?]
  cases h : (a == j) <;> simp [h]

theorem updateM_cons (a : Nat) (b : MarkerObj) (t : Store) (i : Nat) (m : MarkerObj) :
    updateM ((a, b) :: t) i m = (if a == i then (i, m) else (a, b)) :: updateM t i m := rfl

theorem lookupM_updateM_ne (s : Store) (i j : Nat) (m : MarkerObj) (hij : j ≠ i) :
    lookupM (updateM s i m) j = lookupM s j := by
  induction s with
  | nil => rfl
  | cons e rest ih =>
    obtain ⟨k, v⟩ := e
    rw [updateM_cons]
    by_cases hki : k = i
    · subst hki
      have h1 : (k == k) = true := by simp
      have h2 : (k == j) = false := by
        simp only [beq_eq_false_iff_ne]
        exact fun hh => hij hh.symm
      rw [if_pos h1, lookupM_cons, lookupM_cons, h2]
      simpa using ih
    · have h1 : (k == i) = false := by simp [hki]
      rw [if_neg (by simp [h1]), lookupM_cons, lookupM_cons]
      by_cases hkj : k = j
      · simp [hkj]
      · have h2 : (k == j) = false := by simp [hkj]
        rw [h2]
        simpa using ih

/-- C1: for a chain A→B→C of `Depends` markers where only C's provider
signature contains a parameter named `request` of the request type (all
other C-parameters classifying as plain), `update_deep_dependencies` started
at A's marker registers exactly one deferred binding record — C's: C's
marker's dependency is replaced in the store by a pre-seeded application
whose keywords map `request` to `None` and whose advertised signature is C's
signature minus that parameter; A's and B's markers are recursed into but
left unwrapped. -/
theorem claim_C1 (idA idB idC : Nat) (mA mB mC : MarkerObj) (fA fB fC : Func)
    (store : Store) (tyA tyB : Ann) (aName bName : String) (pre post : List Param)
    (hAC : idA ≠ idC) (hBC : idB ≠ idC)
    (hLA : lookupM store idA = some mA)
    (hLB : lookupM store idB = some mB)
    (hLC : lookupM store idC = some mC)
    (hdA : mA.dependency = .func fA) (hdB : mB.dependency = .func fB)
    (hdC : mC.dependency = .func fC)
    (hfA : fA.params = [⟨aName, .annotated tyA (some idB)⟩])
    (hfB : fB.params = [⟨bName, .annotated tyB (some idC)⟩])
    (hfC : fC.params = pre ++ ⟨"request", .cls .httpRequest⟩ :: post)
    (hpre : ∀ p ∈ pre, p.is_auto_depends = .ok false)
    (hpost : ∀ p ∈ post, p.is_auto_depends = .ok false) :
    updateDeepDependencies 3 idA store =
      .ok (updateM store idC
          { mC with dependency :=
              .preseeded (.func fC) [("request", PyVal.noneV)] (pre ++ post) },
        [idC]) ∧
    lookupM (updateM store idC
        { mC with dependency :=
            .preseeded (.func fC) [("request", PyVal.noneV)] (pre ++ post) }) idA =
      some mA ∧
    lookupM (updateM store idC
        { mC with dependency :=
            .preseeded (.func fC) [("request", PyVal.noneV)] (pre ++ post) }) idB =
      some mB := by
  have hsigA : mA.dependency.signature = [⟨aName, .annotated tyA (some idB)⟩] := by
    rw [hdA, DepCallable.signature, hfA]
  have hsigB : mB.dependency.signature = [⟨bName, .annotated tyB (some idC)⟩] := by
    rw [hdB, DepCallable.signature, hfB]
  have hsigC : mC.dependency.signature = pre ++ ⟨"request", .cls .httpRequest⟩ :: post := by
    rw [hdC, DepCallable.signature, hfC]
  have hdefA : getDefaultDependencies mA.dependency.signature = .ok [] := by
    rw [hsigA]; rfl
  have hdefB : getDefaultDependencies mB.dependency.signature = .ok [] := by
    rw [hsigB]; rfl
  have hdefC : getDefaultDependencies mC.dependency.signature = .ok ["request"] := by
    rw [hsigC, getDefault_append_plain pre hpre,
      getDefaultDependencies_cons_key ⟨"request", .cls .httpRequest⟩ rfl (some "request") rfl,
      getDefault_plain_nil post hpost]
    rfl
  have hsig'C : newSignatureWithoutDefaultDependencies mC.dependency.signature =
      .ok (pre ++ post) := by
    rw [hsigC]
    refine newSigWithoutDefaults_append_plain pre hpre _ post ?_
    rw [newSigWithoutDefaults_cons_auto ⟨"request", .cls .httpRequest⟩ rfl]
    exact newSigWithoutDefaults_plain_id post hpost
  have hidsC : depIds mC.dependency.signature = [] := by
    rw [hsigC, depIds, List.filterMap_append]
    have h1 : depIds pre = [] := depIds_plain pre hpre
    have h2 : depIds post = [] := depIds_plain post hpost
    rw [depIds] at h1 h2
    simp [h1, h2]
  have stepC : updateDeepDependencies 1 idC store =
      .ok (updateM store idC
          { mC with dependency :=
              .preseeded (.func fC) [("request", PyVal.noneV)] (pre ++ post) },
        [idC]) := by
    rw [updateDeep_node_defaults 0 idC store mC ["request"] (pre ++ post) hLC hdefC rfl hsig'C,
      hidsC, updateDeepGo_nil]
    rw [hdC]
    rfl
  have stepB : updateDeepDependencies 2 idB store = updateDeepDependencies 1 idC store := by
    rw [updateDeep_node_plain 1 idB store mB hLB hdefB, hsigB]
    have : depIds [(⟨bName, .annotated tyB (some idC)⟩ : Param)] = [idC] := rfl
    rw [this, updateDeepGo_single]
  have stepA : updateDeepDependencies 3 idA store = updateDeepDependencies 2 idB store := by
    rw [updateDeep_node_plain 2 idA store mA hLA hdefA, hsigA]
    have : depIds [(⟨aName, .annotated tyA (some idB)⟩ : Param)] = [idB] := rfl
    rw [this, updateDeepGo_single]
  refine ⟨by rw [stepA, stepB, stepC], ?_, ?_⟩
  · rw [lookupM_updateM_ne store idC idA _ hAC]; exact hLA
  · rw [lookupM_updateM_ne store idC idB _ hBC]; exact hLB

/-- Witness for C1 at a concrete three-level chain with extra plain
parameters around C's `request` parameter. -/
theorem claim_C1_witness :
    updateDeepDependencies 3 0
        [(0, ⟨false, .func ⟨"a", [⟨"x", .annotated (.cls .strCls) (some 1)⟩]⟩, none, true, none⟩),
          (1, ⟨false, .func ⟨"b", [⟨"y", .annotated (.cls .strCls) (some 2)⟩]⟩, none, true, none⟩),
          (2, ⟨false, .func ⟨"c",
            [⟨"u", .cls .strCls⟩, ⟨"request", .cls .httpRequest⟩, ⟨"w", .cls .intCls⟩]⟩,
            none, true, none⟩)] =
      .ok (updateM
          [(0, ⟨false, .func ⟨"a", [⟨"x", .annotated (.cls .strCls) (some 1)⟩]⟩, none, true, none⟩),
            (1, ⟨false, .func ⟨"b", [⟨"y", .annotated (.cls .strCls) (some 2)⟩]⟩, none, true, none⟩),
            (2, ⟨false, .func ⟨"c",
              [⟨"u", .cls .strCls⟩, ⟨"request", .cls .httpRequest⟩, ⟨"w", .cls .intCls⟩]⟩,
              none, true, none⟩)] 2
          { (⟨false, .func ⟨"c",
              [⟨"u", .cls .strCls⟩, ⟨"request", .cls .httpRequest⟩, ⟨"w", .cls .intCls⟩]⟩,
              none, true, none⟩ : MarkerObj) with
            dependency :=
              .preseeded (.func ⟨"c",
                  [⟨"u", .cls .strCls⟩, ⟨"request", .cls .httpRequest⟩, ⟨"w", .cls .intCls⟩]⟩)
                [("request", PyVal.noneV)] ([⟨"u", .cls .strCls⟩] ++ [⟨"w", .cls .intCls⟩]) },
        [2]) := by
  have h := claim_C1 0 1 2
    ⟨false, .func ⟨"a", [⟨"x", .annotated (.cls .strCls) (some 1)⟩]⟩, none, true, none⟩
    ⟨false, .func ⟨"b", [⟨"y", .annotated (.cls .strCls) (some 2)⟩]⟩, none, true, none⟩
    ⟨false, .func ⟨"c",
      [⟨"u", .cls .strCls⟩, ⟨"request", .cls .httpRequest⟩, ⟨"w", .cls .intCls⟩]⟩,
      none, true, none⟩
    ⟨"a", [⟨"x", .annotated (.cls .strCls) (some 1)⟩]⟩
    ⟨"b", [⟨"y", .annotated (.cls .strCls) (some 2)⟩]⟩
    ⟨"c", [⟨"u", .cls .strCls⟩, ⟨"request", .cls .httpRequest⟩, ⟨"w", .cls .intCls⟩]⟩
    [(0, ⟨false, .func ⟨"a", [⟨"x", .annotated (.cls .strCls) (some 1)⟩]⟩, none, true, none⟩),
      (1, ⟨false, .func ⟨"b", [⟨"y", .annotated (.cls .strCls) (some 2)⟩]⟩, none, true, none⟩),
      (2, ⟨false, .func ⟨"c",
        [⟨"u", .cls .strCls⟩, ⟨"request", .cls .httpRequest⟩, ⟨"w", .cls .intCls⟩]⟩,
        none, true, none⟩)]
    (.cls .strCls) (.cls .strCls) "x" "y"
    [⟨"u", .cls .strCls⟩] [⟨"w", .cls .intCls⟩]
    (by decide) (by decide) rfl rfl rfl rfl rfl rfl rfl rfl rfl
    (by intro p hp; fin_cases hp; rfl)
    (by intro p hp; fin_cases hp; rfl)
  exact h.1

theorem lookupM_updateM_self (s : Store) (i : Nat) (m m0 : MarkerObj)
    (h : lookupM s i = some m0) : lookupM (updateM s i m) i = some m := by
  induction s with
  | nil => simp [lookupM] at h
  | cons e rest ih =>
    obtain ⟨k, v⟩ := e
    rw [updateM_cons]
    by_cases hki : k = i
    · subst hki
      rw [if_pos (by simp), lookupM_cons, if_pos (by simp)]
    · have h1 : (k == i) = false := by simp [hki]
      rw [lookupM_cons, h1] at h
      rw [if_neg (by simp [h1]), lookupM_cons, h1]
      simp only [Bool.false_eq_true, if_false]
      exact ih h

/-- Inversion of one step of `new_signature_without_default_dependencies`. -/
theorem newSigWithoutDefaults_cons_inv (p : Param) (rest sig' : List Param)
    (h : newSignatureWithoutDefaultDependencies (p :: rest) = .ok sig') :
    (p.ann.is_annotated = true ∧ ∃ t', newSignatureWithoutDefaultDependencies rest = .ok t' ∧
      sig' = p :: t') ∨
    (p.ann.is_annotated = false ∧ p.is_auto_depends = .ok true ∧
      newSignatureWithoutDefaultDependencies rest = .ok sig') ∨
    (p.ann.is_annotated = false ∧ p.is_auto_depends = .ok false ∧
      ∃ t', newSignatureWithoutDefaultDependencies rest = .ok t' ∧ sig' = p :: t') := by
  cases hann : p.ann.is_annotated with
  | true =>
    left
    rw [newSigWithoutDefaults_cons_ann p hann] at h
    cases hr : newSignatureWithoutDefaultDependencies rest with
    | ok t' =>
      rw [hr] at h
      refine ⟨rfl, t', rfl, ?_⟩
      simpa using h.symm
    | error err => rw [hr] at h; simp at h
  | false =>
    right
    cases hauto : p.is_auto_depends with
    | ok b =>
      cases b with
      | true =>
        left
        refine ⟨rfl, rfl, ?_⟩
        simpa [newSignatureWithoutDefaultDependencies, hann, hauto] using h
      | false =>
        right
        refine ⟨rfl, rfl, ?_⟩
        rw [newSigWithoutDefaults_cons_plain p hauto] at h
        cases hr : newSignatureWithoutDefaultDependencies rest with
        | ok t' =>
          rw [hr] at h
          exact ⟨t', rfl, by simpa using h.symm⟩
        | error err => rw [hr] at h; simp at h
    | error err =>
      exfalso
      simp [newSignatureWithoutDefaultDependencies, hann, hauto] at h

/-- The stripped signature produced by
`new_signature_without_default_dependencies` has no default dependencies of
its own: once a marker's dependency is pre-seeded, re-walking it finds an
empty default-dependency dict and does not re-register it. -/
theorem getDefault_of_withoutDefaults (sig sig' : List Param)
    (h : newSignatureWithoutDefaultDependencies sig = .ok sig') :
    getDefaultDependencies sig' = .ok [] := by
  induction sig generalizing sig' with
  | nil =>
    have : sig' = [] := by simpa [newSignatureWithoutDefaultDependencies] using h.symm
    rw [this]; rfl
  | cons p rest ih =>
    rcases newSigWithoutDefaults_cons_inv p rest sig' h with
      ⟨hann, t', hr, hs⟩ | ⟨hann, hauto, hr⟩ | ⟨hann, hauto, t', hr, hs⟩
    · rw [hs, getDefaultDependencies_cons_ann p hann]
      exact ih t' hr
    · exact ih sig' hr
    · rw [hs, getDefault_cons_plain p hauto]
      exact ih t' hr

/-- A parameter accepted by `is_auto_depends` (with either verdict) has a
class annotation. -/
theorem auto_ok_cls (p : Param) (b : Bool) (h : p.is_auto_depends = .ok b) :
    ∃ c, p.ann = .cls c := by
  obtain ⟨nm, a⟩ := p
  cases a with
  | cls c => exact ⟨c, rfl⟩
  | generic o => simp [Param.is_auto_depends, Param.is_request, Ann.subclassOf] at h
  | union => simp [Param.is_auto_depends, Param.is_request, Ann.subclassOf] at h
  | strAnn s => simp [Param.is_auto_depends, Param.is_request, Ann.subclassOf] at h
  | annotated ty m => simp [Param.is_auto_depends, Param.is_request, Ann.subclassOf] at h

/-- Stripping default dependencies keeps every `is_depends` parameter: the
recursion targets of the walk are unchanged by pre-seeding. -/
theorem depIds_of_withoutDefaults (sig sig' : List Param)
    (h : newSignatureWithoutDefaultDependencies sig = .ok sig') :
    depIds sig' = depIds sig := by
  induction sig generalizing sig' with
  | nil =>
    have : sig' = [] := by simpa [newSignatureWithoutDefaultDependencies] using h.symm
    rw [this]
  | cons p rest ih =>
    rcases newSigWithoutDefaults_cons_inv p rest sig' h with
      ⟨hann, t', hr, hs⟩ | ⟨hann, hauto, hr⟩ | ⟨hann, hauto, t', hr, hs⟩
    · rw [hs]
      simp only [depIds, List.filterMap_cons]
      rw [← depIds, ← depIds, ih t' hr]
    · obtain ⟨c, hc⟩ := auto_ok_cls p true hauto
      obtain ⟨nm, a⟩ := p
      simp only at hc
      cases hc
      simp only [depIds, List.filterMap_cons]
      rw [← depIds, ← depIds, ih sig' hr]
    · obtain ⟨c, hc⟩ := auto_ok_cls p false hauto
      obtain ⟨nm, a⟩ := p
      simp only at hc
      cases hc
      rw [hs]
      simp only [depIds, List.filterMap_cons]
      rw [← depIds, ← depIds, ih t' hr]

/-- A marker is settled in a store when its dependency's advertised
signature has no default dependencies left — re-walking it can neither
mutate it nor register it again. -/
def SettledAt (s : Store) (i : Nat) : Prop :=
  ∀ m, lookupM s i = some m → getDefaultDependencies m.dependency.signature = .ok []

/-- The invariant one walk step maintains: the records it returns are
pairwise distinct and settled afterwards, and markers already settled stay
settled and are never (re-)recorded. -/
def WalkInv (s t : Store) (r : List Nat) : Prop :=
  r.Nodup ∧ (∀ j ∈ r, SettledAt t j) ∧ ∀ j, SettledAt s j → SettledAt t j ∧ j ∉ r

theorem walkInv_refl (s : Store) : WalkInv s s [] :=
  ⟨List.nodup_nil, by simp, fun _ hj => ⟨hj, by simp⟩⟩

theorem walkInv_comp {s u t : Store} {r1 r2 : List Nat}
    (h1 : WalkInv s u r1) (h2 : WalkInv u t r2) : WalkInv s t (r1 ++ r2) := by
  obtain ⟨hn1, hs1, hp1⟩ := h1
  obtain ⟨hn2, hs2, hp2⟩ := h2
  refine ⟨?_, ?_, ?_⟩
  · rw [List.nodup_append]
    exact ⟨hn1, hn2, fun j hj1 hj2 => (hp2 j (hs1 j hj1)).2 hj2⟩
  · intro j hj
    rcases List.mem_append.mp hj with hj1 | hj2
    · exact (hp2 j (hs1 j hj1)).1
    · exact hs2 j hj2
  · intro j hj
    obtain ⟨hu, hr1⟩ := hp1 j hj
    obtain ⟨ht, hr2⟩ := hp2 j hu
    exact ⟨ht, fun hmem => (List.mem_append.mp hmem).elim hr1 hr2⟩

theorem updateDeepGo_cons_inv (f : Nat → Store → Except PyErr (Store × List Nat))
    (i : Nat) (rest : List Nat) (s t : Store) (r : List Nat)
    (h : updateDeepGo f (i :: rest) s = .ok (t, r)) :
    ∃ s1 r1 r2, f i s = .ok (s1, r1) ∧ updateDeepGo f rest s1 = .ok (t, r2) ∧
      r = r1 ++ r2 := by
  cases hu : f i s with
  | error err => simp [updateDeepGo, hu] at h
  | ok v =>
    obtain ⟨s1, r1⟩ := v
    cases hg : updateDeepGo f rest s1 with
    | error err => simp [updateDeepGo, hu, hg] at h
    | ok w =>
      obtain ⟨s2, r2⟩ := w
      simp only [updateDeepGo, hu, ok_bind, hg, pure_eq_ok, Except.ok.injEq, Prod.mk.injEq] at h
      exact ⟨s1, r1, r2, rfl, by rw [hg, h.1], h.2.symm⟩

/-- Inversion of one `update_deep_dependencies` step. -/
theorem updateDeep_succ_inv (fuel i : Nat) (s t : Store) (r : List Nat)
    (h : updateDeepDependencies (fuel + 1) i s = .ok (t, r)) :
    ∃ m, lookupM s i = some m ∧
      ((getDefaultDependencies m.dependency.signature = .ok [] ∧
        updateDeepGo (updateDeepDependencies fuel) (depIds m.dependency.signature) s =
          .ok (t, r)) ∨
      ∃ ks sig' r2, getDefaultDependencies m.dependency.signature = .ok ks ∧
        ks ≠ [] ∧
        newSignatureWithoutDefaultDependencies m.dependency.signature = .ok sig' ∧
        updateDeepGo (updateDeepDependencies fuel) (depIds m.dependency.signature)
            (updateM s i
              { m with dependency :=
                  .preseeded m.dependency (ks.map (fun k => (k, PyVal.noneV))) sig' }) =
          .ok (t, r2) ∧
        r = i :: r2) := by
  cases hm : lookupM s i with
  | none => simp [updateDeepDependencies, hm] at h
  | some m =>
    cases hd : getDefaultDependencies m.dependency.signature with
    | error err => simp [updateDeepDependencies, hm, hd] at h
    | ok ks =>
      cases ks with
      | nil =>
        rw [updateDeep_node_plain fuel i s m hm hd] at h
        exact ⟨m, rfl, Or.inl ⟨hd, h⟩⟩
      | cons k ks' =>
        cases hsg : newSignatureWithoutDefaultDependencies m.dependency.signature with
        | error err => simp [updateDeepDependencies, hm, hd, hsg] at h
        | ok sig' =>
          rw [updateDeep_node_defaults fuel i s m (k :: ks') sig' hm hd rfl hsg] at h
          cases hg : updateDeepGo (updateDeepDependencies fuel) (depIds m.dependency.signature)
              (updateM s i
                { m with dependency :=
                    .preseeded m.dependency ((k :: ks').map (fun k => (k, PyVal.noneV))) sig' }) with
          | error err => rw [hg] at h; simp at h
          | ok w =>
            obtain ⟨t1, r1⟩ := w
            rw [hg] at h
            simp only [exMap_ok, Except.ok.injEq, Prod.mk.injEq] at h
            refine ⟨m, rfl, Or.inr ⟨k :: ks', sig', r1, hd, by simp, hsg, ?_, h.2.symm⟩⟩
            rw [hg, h.1]

/-- The walk invariant holds for `update_deep_dependencies` and for its loop
over the dependency parameters: recorded markers are distinct and settled,
and markers already settled stay settled and are never recorded. -/
theorem updateDeep_inv (fuel : Nat) :
    (∀ i s t r, updateDeepDependencies fuel i s = .ok (t, r) → WalkInv s t r) ∧
    (∀ l s t r, updateDeepGo (updateDeepDependencies fuel) l s = .ok (t, r) → WalkInv s t r) := by
  induction fuel with
  | zero =>
    have hd : ∀ i s t r, updateDeepDependencies 0 i s = .ok (t, r) → WalkInv s t r := by
      intro i s t r h
      simp [updateDeepDependencies] at h
    refine ⟨hd, ?_⟩
    intro l
    induction l with
    | nil =>
      intro s t r h
      simp only [updateDeepGo, Except.ok.injEq, Prod.mk.injEq] at h
      rw [← h.1, ← h.2]
      exact walkInv_refl s
    | cons i rest ih =>
      intro s t r h
      obtain ⟨s1, r1, r2, hu, -, -⟩ := updateDeepGo_cons_inv _ i rest s t r h
      simp [updateDeepDependencies] at hu
  | succ fuel ihf =>
    have hdeep : ∀ i s t r, updateDeepDependencies (fuel + 1) i s = .ok (t, r) →
        WalkInv s t r := by
      intro i s t r h
      obtain ⟨m, hm, hcase⟩ := updateDeep_succ_inv fuel i s t r h
      rcases hcase with ⟨hd, hgo⟩ | ⟨ks, sig', r2, hd, hne, hsg, hgo, hr⟩
      · exact ihf.2 _ _ _ _ hgo
      · subst hr
        obtain ⟨hn2, hs2, hp2⟩ := ihf.2 _ _ _ _ hgo
        have hsettled1 : SettledAt (updateM s i
            { m with dependency :=
                .preseeded m.dependency (ks.map (fun k => (k, PyVal.noneV))) sig' }) i := by
          intro m' hm'
          rw [lookupM_updateM_self s i _ m hm] at hm'
          cases hm'
          exact getDefault_of_withoutDefaults _ _ hsg
        have hiNot : i ∉ r2 := (hp2 i hsettled1).2
        refine ⟨List.nodup_cons.mpr ⟨hiNot, hn2⟩, ?_, ?_⟩
        · intro j hj
          rcases List.mem_cons.mp hj with rfl | hj2
          · exact (hp2 j hsettled1).1
          · exact hs2 j hj2
        · intro j hj
          have hji : j ≠ i := by
            intro he
            subst he
            have := hj m hm
            rw [this] at hd
            cases hd
            exact hne rfl
          have hj1 : SettledAt (updateM s i
              { m with dependency :=
                  .preseeded m.dependency (ks.map (fun k => (k, PyVal.noneV))) sig' }) j := by
            intro m' hm'
            rw [lookupM_updateM_ne s i j _ hji] at hm'
            exact hj m' hm'
          obtain ⟨ht, hnot2⟩ := hp2 j hj1
          exact ⟨ht, fun hmem => (List.mem_cons.mp hmem).elim hji hnot2⟩
    refine ⟨hdeep, ?_⟩
    intro l
    induction l with
    | nil =>
      intro s t r h
      simp only [updateDeepGo, Except.ok.injEq, Prod.mk.injEq] at h
      rw [← h.1, ← h.2]
      exact walkInv_refl s
    | cons i rest ih =>
      intro s t r h
      obtain ⟨s1, r1, r2, hu, hg, hr⟩ := updateDeepGo_cons_inv _ i rest s t r h
      subst hr
      exact walkInv_comp (hdeep _ _ _ _ hu) (ih _ _ _ hg)

/-- The decoration loop of `_create_http_method` also maintains the walk
invariant: its extra marker mutation (assigning `param_name` and
`annotation_type` on custom markers) does not touch the dependency, so it
preserves settledness. -/
theorem walkAnnotated_inv (fuel : Nat) : ∀ (sig : List Param) (s t : Store) (r : List Nat),
    walkAnnotatedParams fuel sig s = .ok (t, r) → WalkInv s t r := by
  intro sig
  induction sig with
  | nil =>
    intro s t r h
    simp only [walkAnnotatedParams, Except.ok.injEq, Prod.mk.injEq] at h
    rw [← h.1, ← h.2]
    exact walkInv_refl s
  | cons p rest ih =>
    intro s t r h
    obtain ⟨nm, a⟩ := p
    cases a with
    | annotated ty mk =>
      cases mk with
      | some i =>
        simp only [walkAnnotatedParams] at h
        cases hm : lookupM s i with
        | none => rw [hm] at h; simp at h
        | some m =>
          rw [hm] at h
          simp only [ok_bind] at h
          set s0 : Store := if m.isCustom then
              updateM s i { m with srcName := some nm, annType := some ty }
            else s with hs0
          have hpres : ∀ j, SettledAt s j → SettledAt s0 j := by
            intro j hj m' hm'
            rw [hs0] at hm'
            by_cases hc : m.isCustom
            · rw [if_pos hc] at hm'
              by_cases hji : j = i
              · subst hji
                rw [lookupM_updateM_self s j _ m hm] at hm'
                cases hm'
                exact hj m hm
              · rw [lookupM_updateM_ne s i j _ hji] at hm'
                exact hj m' hm'
            · rw [if_neg hc] at hm'
              exact hj m' hm'
          have hinv0 : WalkInv s s0 [] :=
            ⟨List.nodup_nil, by simp, fun j hj => ⟨hpres j hj, by simp⟩⟩
          cases hu : updateDeepDependencies fuel i s0 with
          | error err =>
            simp only [hu, error_bind] at h
            simp at h
          | ok v =>
            obtain ⟨s1, r1⟩ := v
            cases hg : walkAnnotatedParams fuel rest s1 with
            | error err =>
              simp only [hu, hg, ok_bind, error_bind] at h
              simp at h
            | ok w =>
              obtain ⟨s2, r2⟩ := w
              simp only [hu, hg, ok_bind, pure_eq_ok, Except.ok.injEq,
                Prod.mk.injEq] at h
              obtain ⟨ht, hr⟩ := h
              rw [← hr, ← ht]
              have h1 : WalkInv s s0 ([] : List Nat) := hinv0
              have h2 : WalkInv s0 s1 r1 := (updateDeep_inv fuel).1 _ _ _ _ hu
              have h3 : WalkInv s1 s2 r2 := ih _ _ _ hg
              have := walkInv_comp (walkInv_comp h1 h2) h3
              simpa using this
      | none => exact ih _ _ _ h
    | cls c => exact ih _ _ _ h
    | generic o => exact ih _ _ _ h
    | union => exact ih _ _ _ h
    | strAnn str => exact ih _ _ _ h

/-- C2 (amended): within one route-decoration pass, the deferred binding
records collected by the graph walk are pairwise distinct marker instances —
a marker, once pre-seeded and registered, is settled (its advertised
signature has no default dependencies left) and is never re-registered, no
matter how often it is reached again. The per-provider uniqueness of the
original claim fails (see the counterexample): distinct marker instances
referencing the same provider each get their own record. -/
theorem claim_C2 (fuel : Nat) (sig : List Param) (store t : Store) (recs : List Nat)
    (h : walkAnnotatedParams fuel sig store = .ok (t, recs)) :
    recs.Nodup ∧ ∀ j ∈ recs, SettledAt t j :=
  ⟨(walkAnnotated_inv fuel sig store t recs h).1,
    (walkAnnotated_inv fuel sig store t recs h).2.1⟩

/-- Witness for C2 (amended) at the two-marker walk of the counterexample. -/
theorem claim_C2_witness :
    ([1, 2] : List Nat).Nodup ∧
      ∀ j ∈ ([1, 2] : List Nat), SettledAt
        [(1, ⟨false,
            .preseeded (.func ⟨"c", [⟨"request", .cls .httpRequest⟩]⟩)
              [("request", .noneV)] [], none, true, none⟩),
          (2, ⟨false,
            .preseeded (.func ⟨"c", [⟨"request", .cls .httpRequest⟩]⟩)
              [("request", .noneV)] [], none, true, none⟩)] j :=
  claim_C2 2
    [⟨"x", .annotated (.cls .strCls) (some 1)⟩, ⟨"y", .annotated (.cls .strCls) (some 2)⟩]
    [(1, ⟨false, .func ⟨"c", [⟨"request", .cls .httpRequest⟩]⟩, none, true, none⟩),
      (2, ⟨false, .func ⟨"c", [⟨"request", .cls .httpRequest⟩]⟩, none, true, none⟩)]
    _ [1, 2] rfl

theorem injectRecords_notin (req : PyVal) (ctx : AppCtx) (l : List Nat) :
    ∀ (s s' : Store), injectRecords req ctx l s = .ok s' → ∀ i, i ∉ l →
      lookupM s' i = lookupM s i := by
  induction l with
  | nil =>
    intro s s' h i _
    simp only [injectRecords, Except.ok.injEq] at h
    rw [← h]
  | cons j rest ih =>
    intro s s' h i hi
    have hij : i ≠ j := fun he => hi (he ▸ List.mem_cons_self _ _)
    have hirest : i ∉ rest := fun hm => hi (List.mem_cons_of_mem _ hm)
    cases hm : lookupM s j with
    | none => simp [injectRecords, hm] at h
    | some m =>
      cases hd : m.dependency with
      | func f => simp [injectRecords, hm, hd] at h
      | preseeded inner kw sg =>
        simp only [injectRecords, hm, hd] at h
        rw [ih _ _ h i hirest, lookupM_updateM_ne _ _ _ _ hij]

/-- C3 (amended): deferred binding records live in a single per-HTTP-verb
list created when the verb method is built; every route decoration with that
verb appends its records to the shared list, and at call time
`_prepare_execution` writes the resolved request (and settings/app/state)
values into the keyword dict of every record accumulated in the list —
records created by other routes' decoration passes included, not only the
invoked route's own. -/
theorem claim_C3 (req : PyVal) (ctx : AppCtx) (verb : List Nat) :
    ∀ (store : Store), verb.Nodup →
    (∀ i ∈ verb, ∃ m inner kw sg, lookupM store i = some m ∧
      m.dependency = .preseeded inner kw sg) →
    ∃ store', injectRecords req ctx verb store = .ok store' ∧
      ∀ i ∈ verb, ∃ m inner kw sg, lookupM store i = some m ∧
        m.dependency = .preseeded inner kw sg ∧
        lookupM store' i =
          some { m with dependency := .preseeded inner (writeSpecialKw req ctx kw) sg } := by
  induction verb with
  | nil =>
    intro store _ _
    exact ⟨store, rfl, by simp⟩
  | cons i rest ih =>
    intro store hnodup h
    obtain ⟨m, inner, kw, sg, hm, hdep⟩ := h i (List.mem_cons_self _ _)
    obtain ⟨hiNot, hndRest⟩ := List.nodup_cons.mp hnodup
    have hne : ∀ j ∈ rest, j ≠ i := fun j hj he => hiNot (he ▸ hj)
    have hrest : ∀ j ∈ rest, ∃ m' inner' kw' sg',
        lookupM (updateM store i
          { m with dependency := .preseeded inner (writeSpecialKw req ctx kw) sg }) j =
          some m' ∧ m'.dependency = .preseeded inner' kw' sg' := by
      intro j hj
      obtain ⟨m', inner', kw', sg', hm', hdep'⟩ := h j (List.mem_cons_of_mem _ hj)
      exact ⟨m', inner', kw', sg',
        by rw [lookupM_updateM_ne _ _ _ _ (hne j hj)]; exact hm', hdep'⟩
    obtain ⟨s', hinj, hall⟩ := ih _ hndRest hrest
    refine ⟨s', ?_, ?_⟩
    · simp only [injectRecords, hm, hdep]
      exact hinj
    · intro j hj
      rcases List.mem_cons.mp hj with rfl | hj2
      · refine ⟨m, inner, kw, sg, hm, hdep, ?_⟩
        rw [injectRecords_notin req ctx rest _ _ hinj j hiNot,
          lookupM_updateM_self store j _ m hm]
      · obtain ⟨m', inner', kw', sg', hm', hdep', hres⟩ := hall j hj2
        rw [lookupM_updateM_ne _ _ _ _ (hne j hj2)] at hm'
        exact ⟨m', inner', kw', sg', hm', hdep', hres⟩

/-- Witness for C3 (amended) at the two-record verb list of the
counterexample, with request value `requestV 5`. -/
theorem claim_C3_witness :
    ∃ store', injectRecords (.requestV 5) ⟨.settingsV, .appV, .stateV⟩ [1, 2]
        [(1, ⟨false,
            .preseeded (.func ⟨"c", [⟨"request", .cls .httpRequest⟩]⟩)
              [("request", .noneV)] [], none, true, none⟩),
          (2, ⟨false,
            .preseeded (.func ⟨"c", [⟨"request", .cls .httpRequest⟩]⟩)
              [("request", .noneV)] [], none, true, none⟩)] = .ok store' ∧
      ∀ i ∈ ([1, 2] : List Nat), ∃ m inner kw sg,
        lookupM [(1, ⟨false,
            .preseeded (.func ⟨"c", [⟨"request", .cls .httpRequest⟩]⟩)
              [("request", .noneV)] [], none, true, none⟩),
          (2, ⟨false,
            .preseeded (.func ⟨"c", [⟨"request", .cls .httpRequest⟩]⟩)
              [("request", .noneV)] [], none, true, none⟩)] i = some m ∧
        m.dependency = .preseeded inner kw sg ∧
        lookupM store' i =
          some { m with dependency := DepCallable.preseeded inner (writeSpecialKw (.requestV 5) ⟨.settingsV, .appV, .stateV⟩ kw) sg } :=
  claim_C3 (.requestV 5) ⟨.settingsV, .appV, .stateV⟩ [1, 2] _ (by decide)
    (by intro i hi; fin_cases hi <;> exact ⟨_, _, _, _, rfl, rfl⟩)

/-- A walk that returned no records also made no mutation: every pre-seeding
is paired with a record append. -/
theorem updateDeep_noop_store (fuel : Nat) :
    (∀ i s t, updateDeepDependencies fuel i s = .ok (t, []) → t = s) ∧
    (∀ l s t, updateDeepGo (updateDeepDependencies fuel) l s = .ok (t, []) → t = s) := by
  induction fuel with
  | zero =>
    have hd : ∀ i s t, updateDeepDependencies 0 i s = .ok (t, []) → t = s := by
      intro i s t h
      simp [updateDeepDependencies] at h
    refine ⟨hd, ?_⟩
    intro l
    induction l with
    | nil =>
      intro s t h
      simp only [updateDeepGo, Except.ok.injEq, Prod.mk.injEq] at h
      exact h.1.symm
    | cons i rest ih =>
      intro s t h
      obtain ⟨s1, r1, r2, hu, -, -⟩ := updateDeepGo_cons_inv _ i rest s t [] h
      simp [updateDeepDependencies] at hu
  | succ fuel ihf =>
    have hdeep : ∀ i s t, updateDeepDependencies (fuel + 1) i s = .ok (t, []) → t = s := by
      intro i s t h
      obtain ⟨m, hm, hcase⟩ := updateDeep_succ_inv fuel i s t [] h
      rcases hcase with ⟨hd, hgo⟩ | ⟨ks, sig', r2, hd, hne, hsg, hgo, hr⟩
      · exact ihf.2 _ _ _ hgo
      · exact absurd hr (by simp)
    refine ⟨hdeep, ?_⟩
    intro l
    induction l with
    | nil =>
      intro s t h
      simp only [updateDeepGo, Except.ok.injEq, Prod.mk.injEq] at h
      exact h.1.symm
    | cons i rest ih =>
      intro s t h
      obtain ⟨s1, r1, r2, hu, hg, hr⟩ := updateDeepGo_cons_inv _ i rest s t [] h
      obtain ⟨hr1, hr2⟩ := List.append_eq_nil.mp hr.symm
      subst hr1
      subst hr2
      have h1 : s1 = s := hdeep _ _ _ hu
      subst h1
      exact ih _ _ hg

/-- Settled markers are left untouched by the walk: their store entries are
preserved verbatim. -/
theorem updateDeep_keeps_settled (fuel : Nat) :
    (∀ i s t r, updateDeepDependencies fuel i s = .ok (t, r) →
      ∀ j, SettledAt s j → lookupM t j = lookupM s j) ∧
    (∀ l s t r, updateDeepGo (updateDeepDependencies fuel) l s = .ok (t, r) →
      ∀ j, SettledAt s j → lookupM t j = lookupM s j) := by
  induction fuel with
  | zero =>
    have hd : ∀ i s t r, updateDeepDependencies 0 i s = .ok (t, r) →
        ∀ j, SettledAt s j → lookupM t j = lookupM s j := by
      intro i s t r h
      simp [updateDeepDependencies] at h
    refine ⟨hd, ?_⟩
    intro l
    induction l with
    | nil =>
      intro s t r h j _
      simp only [updateDeepGo, Except.ok.injEq, Prod.mk.injEq] at h
      rw [← h.1]
    | cons i rest ih =>
      intro s t r h
      obtain ⟨s1, r1, r2, hu, -, -⟩ := updateDeepGo_cons_inv _ i rest s t r h
      simp [updateDeepDependencies] at hu
  | succ fuel ihf =>
    have hdeep : ∀ i s t r, updateDeepDependencies (fuel + 1) i s = .ok (t, r) →
        ∀ j, SettledAt s j → lookupM t j = lookupM s j := by
      intro i s t r h j hj
      obtain ⟨m, hm, hcase⟩ := updateDeep_succ_inv fuel i s t r h
      rcases hcase with ⟨hd, hgo⟩ | ⟨ks, sig', r2, hd, hne, hsg, hgo, hr⟩
      · exact ihf.2 _ _ _ _ hgo j hj
      · have hji : j ≠ i := by
          intro he
          subst he
          rw [hj m hm] at hd
          cases hd
          exact hne rfl
        have hlook : lookupM (updateM s i
            { m with dependency :=
                .preseeded m.dependency (ks.map (fun k => (k, PyVal.noneV))) sig' }) j =
            lookupM s j := lookupM_updateM_ne s i j _ hji
        have hj1 : SettledAt (updateM s i
            { m with dependency :=
                .preseeded m.dependency (ks.map (fun k => (k, PyVal.noneV))) sig' }) j := by
          intro m' hm'
          rw [hlook] at hm'
          exact hj m' hm'
        rw [ihf.2 _ _ _ _ hgo j hj1, hlook]
    refine ⟨hdeep, ?_⟩
    intro l
    induction l with
    | nil =>
      intro s t r h j _
      simp only [updateDeepGo, Except.ok.injEq, Prod.mk.injEq] at h
      rw [← h.1]
    | cons i rest ih =>
      intro s t r h j hj
      obtain ⟨s1, r1, r2, hu, hg, -⟩ := updateDeepGo_cons_inv _ i rest s t r h
      have h1 : lookupM s1 j = lookupM s j := hdeep _ _ _ _ hu j hj
      have hj1 : SettledAt s1 j := by
        intro m' hm'
        rw [h1] at hm'
        exact hj m' hm'
      rw [ih _ _ _ hg j hj1, h1]

/-- The relation a pipeline step preserves: a marker settled beforehand is
still present afterwards with the same dependency (its cosmetic fields may
change). -/
def StepOK (s t : Store) : Prop :=
  ∀ j m, lookupM s j = some m →
    getDefaultDependencies m.dependency.signature = .ok [] →
    ∃ m', lookupM t j = some m' ∧ m'.dependency = m.dependency

theorem stepOK_refl (s : Store) : StepOK s s :=
  fun _ m hm _ => ⟨m, hm, rfl⟩

theorem stepOK_trans {s u t : Store} (h1 : StepOK s u) (h2 : StepOK u t) : StepOK s t := by
  intro j m hm hd
  obtain ⟨m', hm', hdep'⟩ := h1 j m hm hd
  obtain ⟨m'', hm'', hdep''⟩ := h2 j m' hm' (by rw [hdep']; exact hd)
  exact ⟨m'', hm'', by rw [hdep'', hdep']⟩

theorem stepOK_of_deep (fuel i : Nat) (s t : Store) (r : List Nat)
    (h : updateDeepDependencies fuel i s = .ok (t, r)) : StepOK s t := by
  intro j m hm hd
  have hj : SettledAt s j := by
    intro m' hm'
    rw [hm] at hm'
    cases hm'
    exact hd
  refine ⟨m, ?_, rfl⟩
  rw [(updateDeep_keeps_settled fuel).1 _ _ _ _ h j hj]
  exact hm

theorem stepOK_of_go (fuel : Nat) (l : List Nat) (s t : Store) (r : List Nat)
    (h : updateDeepGo (updateDeepDependencies fuel) l s = .ok (t, r)) : StepOK s t := by
  intro j m hm hd
  have hj : SettledAt s j := by
    intro m' hm'
    rw [hm] at hm'
    cases hm'
    exact hd
  refine ⟨m, ?_, rfl⟩
  rw [(updateDeep_keeps_settled fuel).2 _ _ _ _ h j hj]
  exact hm

theorem stepOK_of_walkAnnotated (fuel : Nat) : ∀ (sig : List Param) (s t : Store)
    (r : List Nat), walkAnnotatedParams fuel sig s = .ok (t, r) → StepOK s t := by
  intro sig
  induction sig with
  | nil =>
    intro s t r h
    simp only [walkAnnotatedParams, Except.ok.injEq, Prod.mk.injEq] at h
    rw [← h.1]
    exact stepOK_refl s
  | cons p rest ih =>
    intro s t r h
    obtain ⟨nm, a⟩ := p
    cases a with
    | annotated ty mk =>
      cases mk with
      | some i =>
        simp only [walkAnnotatedParams] at h
        cases hm : lookupM s i with
        | none => rw [hm] at h; simp at h
        | some m =>
          rw [hm] at h
          simp only [ok_bind] at h
          set s0 : Store := if m.isCustom then
              updateM s i { m with srcName := some nm, annType := some ty }
            else s with hs0
          have hstep0 : StepOK s s0 := by
            intro j m' hm' hd'
            rw [hs0]
            by_cases hc : m.isCustom
            · rw [if_pos hc]
              by_cases hji : j = i
              · subst hji
                rw [hm] at hm'
                cases hm'
                exact ⟨_, lookupM_updateM_self s j _ m hm, rfl⟩
              · exact ⟨m', by rw [lookupM_updateM_ne s i j _ hji]; exact hm', rfl⟩
            · rw [if_neg hc]
              exact ⟨m', hm', rfl⟩
          cases hu : updateDeepDependencies fuel i s0 with
          | error err =>
            simp only [hu, error_bind] at h
            simp at h
          | ok v =>
            obtain ⟨s1, r1⟩ := v
            cases hg : walkAnnotatedParams fuel rest s1 with
            | error err =>
              simp only [hu, hg, ok_bind, error_bind] at h
              simp at h
            | ok w =>
              obtain ⟨s2, r2⟩ := w
              simp only [hu, hg, ok_bind, pure_eq_ok, Except.ok.injEq,
                Prod.mk.injEq] at h
              obtain ⟨ht, -⟩ := h
              rw [← ht]
              exact stepOK_trans (stepOK_trans hstep0 (stepOK_of_deep fuel i s0 s1 r1 hu))
                (ih s1 s2 r2 hg)
      | none => exact ih _ _ _ h
    | cls c => exact ih _ _ _ h
    | generic o => exact ih _ _ _ h
    | union => exact ih _ _ _ h
    | strAnn str => exact ih _ _ _ h

/-- A walk step that was a no-op on `s` is still a no-op after any further
pipeline step that preserves settled dependencies. -/
theorem updateDeep_noop_stable (fuel : Nat) :
    (∀ i s t, updateDeepDependencies fuel i s = .ok (s, []) → StepOK s t →
      updateDeepDependencies fuel i t = .ok (t, [])) ∧
    (∀ l s t, updateDeepGo (updateDeepDependencies fuel) l s = .ok (s, []) → StepOK s t →
      updateDeepGo (updateDeepDependencies fuel) l t = .ok (t, [])) := by
  induction fuel with
  | zero =>
    have hd : ∀ i s t, updateDeepDependencies 0 i s = .ok (s, []) → StepOK s t →
        updateDeepDependencies 0 i t = .ok (t, []) := by
      intro i s t h _
      simp [updateDeepDependencies] at h
    refine ⟨hd, ?_⟩
    intro l
    induction l with
    | nil => intro s t _ _; rfl
    | cons i rest ih =>
      intro s t h _
      obtain ⟨s1, r1, r2, hu, -, -⟩ := updateDeepGo_cons_inv _ i rest s s [] h
      simp [updateDeepDependencies] at hu
  | succ fuel ihf =>
    have hdeep : ∀ i s t, updateDeepDependencies (fuel + 1) i s = .ok (s, []) → StepOK s t →
        updateDeepDependencies (fuel + 1) i t = .ok (t, []) := by
      intro i s t h hok
      obtain ⟨m, hm, hcase⟩ := updateDeep_succ_inv fuel i s s [] h
      rcases hcase with ⟨hd, hgo⟩ | ⟨ks, sig', r2, hd, hne, hsg, hgo, hr⟩
      · obtain ⟨m', hm', hdep'⟩ := hok i m hm hd
        rw [updateDeep_node_plain fuel i t m' hm' (by rw [hdep']; exact hd), hdep']
        exact ihf.2 _ _ _ hgo hok
      · exact absurd hr (by simp)
    refine ⟨hdeep, ?_⟩
    intro l
    induction l with
    | nil => intro s t _ _; rfl
    | cons i rest ih =>
      intro s t h hok
      obtain ⟨s1, r1, r2, hu, hg, hr⟩ := updateDeepGo_cons_inv _ i rest s s [] h
      obtain ⟨hr1, hr2⟩ := List.append_eq_nil.mp hr.symm
      subst hr1
      subst hr2
      have h1 : s1 = s := (updateDeep_noop_store (fuel + 1)).1 _ _ _ hu
      subst h1
      have h2 := hdeep i s1 t hu hok
      have h3 := ih s1 t hg hok
      simp [updateDeepGo, h2, h3]

/-- Re-running the walk on its own output is a no-op: everything it could
pre-seed is already settled. -/
theorem updateDeep_idem (fuel : Nat) :
    (∀ i s t r, updateDeepDependencies fuel i s = .ok (t, r) →
      updateDeepDependencies fuel i t = .ok (t, [])) ∧
    (∀ l s t r, updateDeepGo (updateDeepDependencies fuel) l s = .ok (t, r) →
      updateDeepGo (updateDeepDependencies fuel) l t = .ok (t, [])) := by
  induction fuel with
  | zero =>
    have hd : ∀ i s t r, updateDeepDependencies 0 i s = .ok (t, r) →
        updateDeepDependencies 0 i t = .ok (t, []) := by
      intro i s t r h
      simp [updateDeepDependencies] at h
    refine ⟨hd, ?_⟩
    intro l
    induction l with
    | nil =>
      intro s t r h
      simp only [updateDeepGo, Except.ok.injEq, Prod.mk.injEq] at h
      rw [← h.1]
      rfl
    | cons i rest ih =>
      intro s t r h
      obtain ⟨s1, r1, r2, hu, -, -⟩ := updateDeepGo_cons_inv _ i rest s t r h
      simp [updateDeepDependencies] at hu
  | succ fuel ihf =>
    have hdeep : ∀ i s t r, updateDeepDependencies (fuel + 1) i s = .ok (t, r) →
        updateDeepDependencies (fuel + 1) i t = .ok (t, []) := by
      intro i s t r h
      obtain ⟨m, hm, hcase⟩ := updateDeep_succ_inv fuel i s t r h
      rcases hcase with ⟨hd, hgo⟩ | ⟨ks, sig', r2, hd, hne, hsg, hgo, hr⟩
      · have hj : SettledAt s i := by
          intro m' hm'
          rw [hm] at hm'
          cases hm'
          exact hd
        have hlt : lookupM t i = some m := by
          rw [(updateDeep_keeps_settled fuel).2 _ _ _ _ hgo i hj]
          exact hm
        rw [updateDeep_node_plain fuel i t m hlt hd]
        exact ihf.2 _ _ _ _ hgo
      · have hset1 : SettledAt (updateM s i
            { m with dependency :=
                .preseeded m.dependency (ks.map (fun k => (k, PyVal.noneV))) sig' }) i := by
          intro m' hm'
          rw [lookupM_updateM_self s i _ m hm] at hm'
          cases hm'
          exact getDefault_of_withoutDefaults _ _ hsg
        have hlt : lookupM t i = some
            { m with dependency :=
                .preseeded m.dependency (ks.map (fun k => (k, PyVal.noneV))) sig' } := by
          rw [(updateDeep_keeps_settled fuel).2 _ _ _ _ hgo i hset1]
          exact lookupM_updateM_self s i _ m hm
        rw [updateDeep_node_plain fuel i t _ hlt (getDefault_of_withoutDefaults _ _ hsg)]
        have hids : depIds (DepCallable.preseeded m.dependency
            (ks.map (fun k => (k, PyVal.noneV))) sig').signature =
            depIds m.dependency.signature := by
          rw [DepCallable.signature]
          exact depIds_of_withoutDefaults _ _ hsg
        rw [hids]
        exact ihf.2 _ _ _ _ hgo
    refine ⟨hdeep, ?_⟩
    intro l
    induction l with
    | nil =>
      intro s t r h
      simp only [updateDeepGo, Except.ok.injEq, Prod.mk.injEq] at h
      rw [← h.1]
      rfl
    | cons i rest ih =>
      intro s t r h
      obtain ⟨s1, r1, r2, hu, hg, -⟩ := updateDeepGo_cons_inv _ i rest s t r h
      have hnoop : updateDeepDependencies (fuel + 1) i s1 = .ok (s1, []) :=
        hdeep _ _ _ _ hu
      have hstep : StepOK s1 t := stepOK_of_go (fuel + 1) rest s1 t r2 hg
      have h2 : updateDeepDependencies (fuel + 1) i t = .ok (t, []) :=
        (updateDeep_noop_stable (fuel + 1)).1 _ _ _ hnoop hstep
      have h3 := ih _ _ _ hg
      simp [updateDeepGo, h2, h3]

/-- The non-dependency attributes of a marker object, which the deep walk
never touches. -/
def mfields (m : MarkerObj) : Bool × Option String × Option Ann × Bool :=
  (m.isCustom, m.srcName, m.annType, m.required)

theorem updateDeep_keeps_mfields (fuel : Nat) :
    (∀ i s t r, updateDeepDependencies fuel i s = .ok (t, r) →
      ∀ j, (lookupM t j).map mfields = (lookupM s j).map mfields) ∧
    (∀ l s t r, updateDeepGo (updateDeepDependencies fuel) l s = .ok (t, r) →
      ∀ j, (lookupM t j).map mfields = (lookupM s j).map mfields) := by
  induction fuel with
  | zero =>
    have hd : ∀ i s t r, updateDeepDependencies 0 i s = .ok (t, r) →
        ∀ j, (lookupM t j).map mfields = (lookupM s j).map mfields := by
      intro i s t r h
      simp [updateDeepDependencies] at h
    refine ⟨hd, ?_⟩
    intro l
    induction l with
    | nil =>
      intro s t r h j
      simp only [updateDeepGo, Except.ok.injEq, Prod.mk.injEq] at h
      rw [← h.1]
    | cons i rest ih =>
      intro s t r h
      obtain ⟨s1, r1, r2, hu, -, -⟩ := updateDeepGo_cons_inv _ i rest s t r h
      simp [updateDeepDependencies] at hu
  | succ fuel ihf =>
    have hdeep : ∀ i s t r, updateDeepDependencies (fuel + 1) i s = .ok (t, r) →
        ∀ j, (lookupM t j).map mfields = (lookupM s j).map mfields := by
      intro i s t r h j
      obtain ⟨m, hm, hcase⟩ := updateDeep_succ_inv fuel i s t r h
      rcases hcase with ⟨hd, hgo⟩ | ⟨ks, sig', r2, hd, hne, hsg, hgo, hr⟩
      · exact ihf.2 _ _ _ _ hgo j
      · rw [ihf.2 _ _ _ _ hgo j]
        by_cases hji : j = i
        · subst hji
          rw [lookupM_updateM_self s j _ m hm, hm]
          rfl
        · rw [lookupM_updateM_ne s i j _ hji]
    refine ⟨hdeep, ?_⟩
    intro l
    induction l with
    | nil =>
      intro s t r h j
      simp only [updateDeepGo, Except.ok.injEq, Prod.mk.injEq] at h
      rw [← h.1]
    | cons i rest ih =>
      intro s t r h j
      obtain ⟨s1, r1, r2, hu, hg, -⟩ := updateDeepGo_cons_inv _ i rest s t r h
      rw [ih _ _ _ hg j, hdeep _ _ _ _ hu j]

theorem updateM_keys (s : Store) (i : Nat) (m : MarkerObj) :
    (updateM s i m).map Prod.fst = s.map Prod.fst := by
  induction s with
  | nil => rfl
  | cons e rest ih =>
    obtain ⟨k, v⟩ := e
    rw [updateM_cons]
    cases h : (k == i) with
    | true =>
      have he : k = i := by simpa using h
      subst he
      simp only [List.map_cons]
      rw [ih]
      simp
    | false =>
      simp only [h, List.map_cons]
      rw [ih]
      simp

theorem updateDeep_keeps_keys (fuel : Nat) :
    (∀ i s t r, updateDeepDependencies fuel i s = .ok (t, r) →
      t.map Prod.fst = s.map Prod.fst) ∧
    (∀ l s t r, updateDeepGo (updateDeepDependencies fuel) l s = .ok (t, r) →
      t.map Prod.fst = s.map Prod.fst) := by
  induction fuel with
  | zero =>
    have hd : ∀ i s t r, updateDeepDependencies 0 i s = .ok (t, r) →
        t.map Prod.fst = s.map Prod.fst := by
      intro i s t r h
      simp [updateDeepDependencies] at h
    refine ⟨hd, ?_⟩
    intro l
    induction l with
    | nil =>
      intro s t r h
      simp only [updateDeepGo, Except.ok.injEq, Prod.mk.injEq] at h
      rw [← h.1]
    | cons i rest ih =>
      intro s t r h
      obtain ⟨s1, r1, r2, hu, -, -⟩ := updateDeepGo_cons_inv _ i rest s t r h
      simp [updateDeepDependencies] at hu
  | succ fuel ihf =>
    have hdeep : ∀ i s t r, updateDeepDependencies (fuel + 1) i s = .ok (t, r) →
        t.map Prod.fst = s.map Prod.fst := by
      intro i s t r h
      obtain ⟨m, hm, hcase⟩ := updateDeep_succ_inv fuel i s t r h
      rcases hcase with ⟨hd, hgo⟩ | ⟨ks, sig', r2, hd, hne, hsg, hgo, hr⟩
      · exact ihf.2 _ _ _ _ hgo
      · rw [ihf.2 _ _ _ _ hgo, updateM_keys]
    refine ⟨hdeep, ?_⟩
    intro l
    induction l with
    | nil =>
      intro s t r h
      simp only [updateDeepGo, Except.ok.injEq, Prod.mk.injEq] at h
      rw [← h.1]
    | cons i rest ih =>
      intro s t r h
      obtain ⟨s1, r1, r2, hu, hg, -⟩ := updateDeepGo_cons_inv _ i rest s t r h
      rw [ih _ _ _ hg, hdeep _ _ _ _ hu]

theorem updateM_of_notmem (s : Store) (i : Nat) (m : MarkerObj)
    (h : i ∉ s.map Prod.fst) : updateM s i m = s := by
  induction s with
  | nil => rfl
  | cons e rest ih =>
    obtain ⟨k, v⟩ := e
    have hk : k ≠ i := by
      intro he
      exact h (by simp [he])
    rw [updateM_cons, if_neg (by simp [hk])]
    rw [ih (fun hm => h (List.mem_cons_of_mem _ hm))]

theorem updateM_identity (s : Store) (i : Nat) (m : MarkerObj)
    (hnd : (s.map Prod.fst).Nodup) (h : lookupM s i = some m) : updateM s i m = s := by
  induction s with
  | nil => rfl
  | cons e rest ih =>
    obtain ⟨k, v⟩ := e
    obtain ⟨hk, hndr⟩ := List.nodup_cons.mp hnd
    rw [lookupM_cons] at h
    rw [updateM_cons]
    cases hki : (k == i) with
    | true =>
      have he : k = i := by simpa using hki
      subst he
      rw [if_pos (by simp)] at h ⊢
      cases h
      rw [updateM_of_notmem rest k m hk]
    | false =>
      rw [hki] at h
      simp only [Bool.false_eq_true, if_false] at h
      simp only [hki, Bool.false_eq_true, if_false]
      rw [ih hndr h]

theorem walkAnnotated_keeps_keys (fuel : Nat) : ∀ (sig : List Param) (s t : Store)
    (r : List Nat), walkAnnotatedParams fuel sig s = .ok (t, r) →
    t.map Prod.fst = s.map Prod.fst := by
  intro sig
  induction sig with
  | nil =>
    intro s t r h
    simp only [walkAnnotatedParams, Except.ok.injEq, Prod.mk.injEq] at h
    rw [← h.1]
  | cons p rest ih =>
    intro s t r h
    obtain ⟨nm, a⟩ := p
    cases a with
    | annotated ty mk =>
      cases mk with
      | some i =>
        simp only [walkAnnotatedParams] at h
        cases hm : lookupM s i with
        | none => rw [hm] at h; simp at h
        | some m =>
          rw [hm] at h
          simp only [ok_bind] at h
          set s0 : Store := if m.isCustom then
              updateM s i { m with srcName := some nm, annType := some ty }
            else s with hs0
          have hk0 : s0.map Prod.fst = s.map Prod.fst := by
            rw [hs0]
            by_cases hc : m.isCustom
            · rw [if_pos hc, updateM_keys]
            · rw [if_neg hc]
          cases hu : updateDeepDependencies fuel i s0 with
          | error err =>
            simp only [hu, error_bind] at h
            simp at h
          | ok v =>
            obtain ⟨s1, r1⟩ := v
            cases hg : walkAnnotatedParams fuel rest s1 with
            | error err =>
              simp only [hu, hg, ok_bind, error_bind] at h
              simp at h
            | ok w =>
              obtain ⟨s2, r2⟩ := w
              simp only [hu, hg, ok_bind, pure_eq_ok, Except.ok.injEq,
                Prod.mk.injEq] at h
              obtain ⟨ht, -⟩ := h
              rw [← ht, ih _ _ _ hg, (updateDeep_keeps_keys fuel).1 _ _ _ _ hu, hk0]
      | none => exact ih _ _ _ h
    | cls c => exact ih _ _ _ h
    | generic o => exact ih _ _ _ h
    | union => exact ih _ _ _ h
    | strAnn str => exact ih _ _ _ h

/-- The decoration loop only reassigns `param_name`/`annotation_type` on the
markers referenced by the signature it walks: markers outside that list keep
their attributes. -/
theorem walkAnnotated_keeps_mfields_outside (fuel : Nat) : ∀ (sig : List Param)
    (s t : Store) (r : List Nat), walkAnnotatedParams fuel sig s = .ok (t, r) →
    ∀ j, j ∉ depIds sig →
      (lookupM t j).map mfields = (lookupM s j).map mfields := by
  intro sig
  induction sig with
  | nil =>
    intro s t r h j _
    simp only [walkAnnotatedParams, Except.ok.injEq, Prod.mk.injEq] at h
    rw [← h.1]
  | cons p rest ih =>
    intro s t r h j hj
    obtain ⟨nm, a⟩ := p
    cases a with
    | annotated ty mk =>
      cases mk with
      | some i =>
        have hji : j ≠ i := by
          intro he
          exact hj (by simp [depIds, he])
        have hjrest : j ∉ depIds rest := by
          intro hmem
          exact hj (by simp [depIds, List.filterMap_cons]; right; simpa [depIds] using hmem)
        simp only [walkAnnotatedParams] at h
        cases hm : lookupM s i with
        | none => rw [hm] at h; simp at h
        | some m =>
          rw [hm] at h
          simp only [ok_bind] at h
          set s0 : Store := if m.isCustom then
              updateM s i { m with srcName := some nm, annType := some ty }
            else s with hs0
          have hf0 : (lookupM s0 j).map mfields = (lookupM s j).map mfields := by
            rw [hs0]
            by_cases hc : m.isCustom
            · rw [if_pos hc, lookupM_updateM_ne s i j _ hji]
            · rw [if_neg hc]
          cases hu : updateDeepDependencies fuel i s0 with
          | error err =>
            simp only [hu, error_bind] at h
            simp at h
          | ok v =>
            obtain ⟨s1, r1⟩ := v
            cases hg : walkAnnotatedParams fuel rest s1 with
            | error err =>
              simp only [hu, hg, ok_bind, error_bind] at h
              simp at h
            | ok w =>
              obtain ⟨s2, r2⟩ := w
              simp only [hu, hg, ok_bind, pure_eq_ok, Except.ok.injEq,
                Prod.mk.injEq] at h
              obtain ⟨ht, -⟩ := h
              rw [← ht, ih _ _ _ hg j hjrest,
                (updateDeep_keeps_mfields fuel).1 _ _ _ _ hu j, hf0]
      | none =>
        refine ih _ _ _ h j ?_
        simpa [depIds, List.filterMap_cons] using hj
    | cls c =>
      refine ih _ _ _ h j ?_
      simpa [depIds, List.filterMap_cons] using hj
    | generic o =>
      refine ih _ _ _ h j ?_
      simpa [depIds, List.filterMap_cons] using hj
    | union =>
      refine ih _ _ _ h j ?_
      simpa [depIds, List.filterMap_cons] using hj
    | strAnn str =>
      refine ih _ _ _ h j ?_
      simpa [depIds, List.filterMap_cons] using hj

/-- Re-running a whole decoration pass on its own output is a no-op: the
custom markers are re-assigned the values they already hold and every deep
walk finds only settled markers. Stated for stores with distinct marker
identities per key and signatures whose top-level markers are distinct
instances (both true of real decorations, where each `Annotated` site
constructs its own marker). -/
theorem walkAnnotated_idem (fuel : Nat) : ∀ (sig : List Param) (s t : Store)
    (r : List Nat), walkAnnotatedParams fuel sig s = .ok (t, r) →
    (s.map Prod.fst).Nodup → (depIds sig).Nodup →
    walkAnnotatedParams fuel sig t = .ok (t, []) := by
  intro sig
  induction sig with
  | nil =>
    intro s t r _ _ _
    rfl
  | cons p rest ih =>
    intro s t r h hkeys hids
    obtain ⟨nm, a⟩ := p
    cases a with
    | annotated ty mk =>
      cases mk with
      | some i =>
        have hiNot : i ∉ depIds rest := by
          have : depIds (⟨nm, Ann.annotated ty (some i)⟩ :: rest) = i :: depIds rest := rfl
          rw [this] at hids
          exact (List.nodup_cons.mp hids).1
        have hidsRest : (depIds rest).Nodup := by
          have : depIds (⟨nm, Ann.annotated ty (some i)⟩ :: rest) = i :: depIds rest := rfl
          rw [this] at hids
          exact (List.nodup_cons.mp hids).2
        simp only [walkAnnotatedParams] at h
        cases hm : lookupM s i with
        | none => rw [hm] at h; simp at h
        | some m =>
          rw [hm] at h
          simp only [ok_bind] at h
          set s0 : Store := if m.isCustom then
              updateM s i { m with srcName := some nm, annType := some ty }
            else s with hs0
          cases hu : updateDeepDependencies fuel i s0 with
          | error err =>
            simp only [hu, error_bind] at h
            simp at h
          | ok v =>
            obtain ⟨s1, r1⟩ := v
            cases hg : walkAnnotatedParams fuel rest s1 with
            | error err =>
              simp only [hu, hg, ok_bind, error_bind] at h
              simp at h
            | ok w =>
              obtain ⟨s2, r2⟩ := w
              simp only [hu, hg, ok_bind, pure_eq_ok, Except.ok.injEq,
                Prod.mk.injEq] at h
              obtain ⟨ht, -⟩ := h
              subst ht
              -- key bookkeeping
              have hk0 : s0.map Prod.fst = s.map Prod.fst := by
                rw [hs0]
                by_cases hc : m.isCustom
                · rw [if_pos hc, updateM_keys]
                · rw [if_neg hc]
              have hk1 : s1.map Prod.fst = s.map Prod.fst := by
                rw [(updateDeep_keeps_keys fuel).1 _ _ _ _ hu, hk0]
              have hkT : s2.map Prod.fst = s.map Prod.fst := by
                rw [walkAnnotated_keeps_keys fuel rest s1 s2 r2 hg, hk1]
              have hkeys1 : (s1.map Prod.fst).Nodup := by rw [hk1]; exact hkeys
              have hkeysT : (s2.map Prod.fst).Nodup := by rw [hkT]; exact hkeys
              -- marker attributes at the end of the pass
              have hfT : (lookupM s2 i).map mfields = (lookupM s0 i).map mfields := by
                rw [walkAnnotated_keeps_mfields_outside fuel rest s1 s2 r2 hg i hiNot,
                  (updateDeep_keeps_mfields fuel).1 _ _ _ _ hu i]
              -- the pass-1 marker entry at `i` as the pass left it
              have hls0 : lookupM s0 i = some (if m.isCustom then
                  { m with srcName := some nm, annType := some ty } else m) := by
                rw [hs0]
                by_cases hc : m.isCustom
                · rw [if_pos hc, if_pos hc]
                  exact lookupM_updateM_self s i _ m hm
                · rw [if_neg hc, if_neg hc]
                  exact hm
              obtain ⟨mT, hmT⟩ : ∃ mT, lookupM s2 i = some mT := by
                cases hmt : lookupM s2 i with
                | none => rw [hmt, hls0] at hfT; simp at hfT
                | some mT => exact ⟨mT, rfl⟩
              rw [hmT, hls0] at hfT
              -- the re-run of the custom assignment is the identity
              have ht0 : (if mT.isCustom then
                  updateM s2 i { mT with srcName := some nm, annType := some ty }
                else s2) = s2 := by
                by_cases hc : m.isCustom
                · rw [if_pos hc] at hfT
                  obtain ⟨c1, d1, sn1, rq1, at1⟩ := mT
                  simp only [Option.map_some', Option.some.injEq, mfields,
                    Prod.mk.injEq] at hfT
                  obtain ⟨hc1, hsn1, hat1, hrq1⟩ := hfT
                  subst hc1
                  subst hsn1
                  subst hat1
                  rw [if_pos hc]
                  exact updateM_identity s2 i _ hkeysT hmT
                · rw [if_neg hc] at hfT
                  obtain ⟨c1, d1, sn1, rq1, at1⟩ := mT
                  simp only [Option.map_some', Option.some.injEq, mfields,
                    Prod.mk.injEq] at hfT
                  obtain ⟨hc1, -, -, -⟩ := hfT
                  subst hc1
                  rw [if_neg hc]
              -- the re-run of the deep walk and of the rest of the loop
              have hidem : updateDeepDependencies fuel i s1 = .ok (s1, []) :=
                (updateDeep_idem fuel).1 _ _ _ _ hu
              have hstep : StepOK s1 s2 := stepOK_of_walkAnnotated fuel rest s1 s2 r2 hg
              have hdeepT : updateDeepDependencies fuel i s2 = .ok (s2, []) :=
                (updateDeep_noop_stable fuel).1 _ _ _ hidem hstep
              have hrestT : walkAnnotatedParams fuel rest s2 = .ok (s2, []) :=
                ih _ _ _ hg hkeys1 hidsRest
              simp only [walkAnnotatedParams, hmT, ok_bind, ht0, hdeepT, hrestT,
                pure_eq_ok]
              simp
      | none => exact ih _ _ _ h hkeys hids
    | cls c => exact ih _ _ _ h hkeys hids
    | generic o => exact ih _ _ _ h hkeys hids
    | union => exact ih _ _ _ h hkeys hids
    | strAnn str => exact ih _ _ _ h hkeys hids

/-- Inversion of a decoration pass over a handler with no raw auto-injected
parameters: the handler is not wrapped, the walk supplies the store and the
records, and the per-verb list is extended. -/
theorem decorate_fresh_inv (fuel : Nat) (f : Func) (store : Store) (vl : List Nat)
    (w : Wrapper) (s1 : Store) (vl1 : List Nat)
    (hplain : hasDefaultDependencies f.params = .ok false)
    (h : decorate fuel (.fresh f) store vl = .ok (w, s1, vl1)) :
    ∃ recs, walkAnnotatedParams fuel f.params store = .ok (s1, recs) ∧
      vl1 = vl ++ recs ∧
      w = { backRef := .plain f, apiFunc := .plain f, apiSig := f.params,
            publicSig := newSignatureWithoutAnnotated f.params } := by
  simp only [decorate, ApiFunc.signature, hplain, ok_bind, Bool.false_eq_true, if_false,
    pure_eq_ok] at h
  cases hw : walkAnnotatedParams fuel f.params store with
  | error err =>
    simp only [hw, error_bind] at h
    simp at h
  | ok v =>
    obtain ⟨st, recs⟩ := v
    simp only [hw, ok_bind, pure_eq_ok, Except.ok.injEq, Prod.mk.injEq] at h
    obtain ⟨hwq, hst, hvl⟩ := h
    exact ⟨recs, by rw [hst], hvl.symm, hwq.symm⟩

/-- C8 (amended): re-applying the verb decorator to a decorated handler
recovers, via the stored back-reference, the handler as it stood after
auto-dependency stripping — the original undecorated function exactly when
the handler declared no raw request/settings/app/state parameters (the
counterexample shows the pre-seeded application is stored otherwise) — and
the second pass produces a wrapper with the same captured handler and the
same public signature; but re-registration is not idempotent: the signature
restored at the end of the first pass is a deep copy whose `Annotated`
markers are fresh, unwalked copies of the pre-walk originals, so the second
pass walks those copies, pre-seeds each copy whose provider needs injection,
and appends a new deferred binding record for it to the per-verb list.
Stated for a handler with one `Depends` reference to a request-needing
provider: `i` is the original marker, `iC` the deep copy the restored
signature references, holding the same pre-walk state `mi`. -/
theorem claim_C8 (fuel : Nat) (f p : Func) (i iC : Nat) (mi : MarkerObj)
    (xName : String) (ty : Ann) (store s2in s1 : Store) (vl vl1 : List Nat)
    (w1 : Wrapper)
    (hf : f.params = [⟨xName, .annotated ty (some i)⟩])
    (h1 : decorate (fuel + 1) (.fresh f) store vl = .ok (w1, s1, vl1))
    (horig : lookupM store i = some mi)
    (hcopy : lookupM s2in iC = some mi)
    (hcust : mi.isCustom = false)
    (hdep : mi.dependency = .func p)
    (hp : p.params = [⟨"request", .cls .httpRequest⟩]) :
    w1.backRef = .plain f ∧
    w1.apiFunc = .plain f ∧
    w1.publicSig = [] ∧
    decorate (fuel + 1) (.wrapped w1 [⟨xName, .annotated ty (some iC)⟩]) s2in vl1 =
      .ok ({ backRef := .plain f, apiFunc := .plain f,
             apiSig := [⟨xName, .annotated ty (some iC)⟩], publicSig := [] },
        updateM s2in iC
          { mi with dependency := .preseeded (.func p) [("request", PyVal.noneV)] [] },
        vl1 ++ [iC]) ∧
    vl1 ++ [iC] ≠ vl1 := by
  have hplain : hasDefaultDependencies f.params = .ok false := by rw [hf]; rfl
  obtain ⟨recs, hw, hv, hwdef⟩ :=
    decorate_fresh_inv (fuel + 1) f store vl w1 s1 vl1 hplain h1
  subst hwdef
  refine ⟨rfl, rfl, by rw [hf]; rfl, ?_, by simp⟩
  have hdefi : getDefaultDependencies mi.dependency.signature = .ok ["request"] := by
    rw [hdep, DepCallable.signature, hp]
    rfl
  have hsig2 : newSignatureWithoutDefaultDependencies mi.dependency.signature = .ok [] := by
    rw [hdep, DepCallable.signature, hp]
    rfl
  have hids : depIds mi.dependency.signature = [] := by
    rw [hdep, DepCallable.signature, hp]
    rfl
  have hstep := updateDeep_node_defaults fuel iC s2in mi ["request"] [] hcopy hdefi rfl hsig2
  rw [hids, updateDeepGo_nil] at hstep
  simp only [exMap_ok, List.map_cons, List.map_nil] at hstep
  rw [hdep] at hstep
  have hwalk : walkAnnotatedParams (fuel + 1) [⟨xName, .annotated ty (some iC)⟩] s2in =
      .ok (updateM s2in iC
        { mi with dependency := .preseeded (.func p) [("request", PyVal.noneV)] [] },
        [iC]) := by
    simp only [walkAnnotatedParams, hcopy, hcust, Bool.false_eq_true, if_false, ok_bind,
      hstep, pure_eq_ok]
    rfl
  simp only [decorate, ok_bind, Bool.false_eq_true, if_false, hwalk, pure_eq_ok]
  rfl

/-- Witness for C8 (amended): a concrete handler with one request-needing
dependency, decorated, then re-decorated through its restored deep-copied
signature (marker 1 copied as marker 2): the copy is pre-seeded anew and a
second deferred binding record is appended. -/
theorem claim_C8_witness :
    Wrapper.backRef
        { backRef := .plain ⟨"r1", [⟨"x", .annotated (.cls .strCls) (some 1)⟩]⟩,
          apiFunc := .plain ⟨"r1", [⟨"x", .annotated (.cls .strCls) (some 1)⟩]⟩,
          apiSig := [⟨"x", .annotated (.cls .strCls) (some 1)⟩],
          publicSig := [] } =
      .plain ⟨"r1", [⟨"x", .annotated (.cls .strCls) (some 1)⟩]⟩ ∧
    Wrapper.apiFunc
        { backRef := .plain ⟨"r1", [⟨"x", .annotated (.cls .strCls) (some 1)⟩]⟩,
          apiFunc := .plain ⟨"r1", [⟨"x", .annotated (.cls .strCls) (some 1)⟩]⟩,
          apiSig := [⟨"x", .annotated (.cls .strCls) (some 1)⟩],
          publicSig := [] } =
      .plain ⟨"r1", [⟨"x", .annotated (.cls .strCls) (some 1)⟩]⟩ ∧
    Wrapper.publicSig
        { backRef := .plain ⟨"r1", [⟨"x", .annotated (.cls .strCls) (some 1)⟩]⟩,
          apiFunc := .plain ⟨"r1", [⟨"x", .annotated (.cls .strCls) (some 1)⟩]⟩,
          apiSig := [⟨"x", .annotated (.cls .strCls) (some 1)⟩],
          publicSig := [] } = [] ∧
    decorate 1
        (.wrapped
          { backRef := .plain ⟨"r1", [⟨"x", .annotated (.cls .strCls) (some 1)⟩]⟩,
            apiFunc := .plain ⟨"r1", [⟨"x", .annotated (.cls .strCls) (some 1)⟩]⟩,
            apiSig := [⟨"x", .annotated (.cls .strCls) (some 1)⟩],
            publicSig := [] }
          [⟨"x", .annotated (.cls .strCls) (some 2)⟩])
        [(1, ⟨false,
          .preseeded (.func ⟨"d1", [⟨"request", .cls .httpRequest⟩]⟩)
            [("request", .noneV)] [], none, true, none⟩),
          (2, ⟨false, .func ⟨"d1", [⟨"request", .cls .httpRequest⟩]⟩, none, true, none⟩)]
        [1] =
      .ok ({ backRef := .plain ⟨"r1", [⟨"x", .annotated (.cls .strCls) (some 1)⟩]⟩,
             apiFunc := .plain ⟨"r1", [⟨"x", .annotated (.cls .strCls) (some 1)⟩]⟩,
             apiSig := [⟨"x", .annotated (.cls .strCls) (some 2)⟩], publicSig := [] },
        updateM
          [(1, ⟨false,
            .preseeded (.func ⟨"d1", [⟨"request", .cls .httpRequest⟩]⟩)
              [("request", .noneV)] [], none, true, none⟩),
            (2, ⟨false, .func ⟨"d1", [⟨"request", .cls .httpRequest⟩]⟩, none, true, none⟩)]
          2
          { (⟨false, .func ⟨"d1", [⟨"request", .cls .httpRequest⟩]⟩, none, true,
              none⟩ : MarkerObj) with
            dependency := .preseeded (.func ⟨"d1", [⟨"request", .cls .httpRequest⟩]⟩)
              [("request", PyVal.noneV)] [] },
        [1] ++ [2]) ∧
    ([1] : List Nat) ++ [2] ≠ [1] :=
  claim_C8 0 ⟨"r1", [⟨"x", .annotated (.cls .strCls) (some 1)⟩]⟩
    ⟨"d1", [⟨"request", .cls .httpRequest⟩]⟩ 1 2
    ⟨false, .func ⟨"d1", [⟨"request", .cls .httpRequest⟩]⟩, none, true, none⟩
    "x" (.cls .strCls)
    [(1, ⟨false, .func ⟨"d1", [⟨"request", .cls .httpRequest⟩]⟩, none, true, none⟩)]
    [(1, ⟨false,
      .preseeded (.func ⟨"d1", [⟨"request", .cls .httpRequest⟩]⟩)
        [("request", .noneV)] [], none, true, none⟩),
      (2, ⟨false, .func ⟨"d1", [⟨"request", .cls .httpRequest⟩]⟩, none, true, none⟩)]
    _ [] _ _ rfl rfl rfl rfl rfl rfl rfl

end Unchained
